import Mathlib

/-!
Verification development for a tracing garbage collector library.

The repository holds two collector variants:

* tgc.cpp — the incremental mark-sweep collector (class Collector), with states
  RootMarking → ChildMarking → Sweeping driven by a bounded step budget;
* gcptr.cpp / gcptr.h — the non-incremental variant (struct GC) together with
  the smart-pointer surface gc_ptr.

This file shallowly embeds both.  Machine addresses are Nat; object metas and
pointer handles are identified by Nat ids into explicit heaps; the fallible
lookup findOwnerObjInfo returns Option.  The header tgc.h is not part of the
sources, so the pieces only declared there (the PtrBase and ObjMeta field
lists, the range order ObjMeta::Less, and the sub-pointer iterator enumPtrs)
are modelled from the specification text, as noted in each doc comment.
-/

/-- Mark colors of an object meta, after the tri-color scheme of tgc.cpp
(ObjMeta::MarkColor): Unmarked (white), Gray (in the work list), Alive
(black).  The enum itself is declared in the absent header tgc.h; the three
values and their use are taken from tgc.cpp and the spec. -/
inductive MarkColor where
  | Unmarked
  | Gray
  | Alive
  deriving DecidableEq

/-- Collector states, from enum class State in tgc.cpp line 16. -/
inductive GcState where
  | RootMarking
  | ChildMarking
  | Sweeping
  deriving DecidableEq

/-- Handle header PtrBase.  Modelled from the spec: the field list (nullable
meta back-reference, root flag, registry index) is declared in the absent
header tgc.h; every use in tgc.cpp matches it.  The meta reference is an id
into the Collector's meta heap. -/
structure PtrBase where
  meta : Option Nat
  isRoot : Bool
  index : Nat
  deriving DecidableEq

/-- Per-allocation header ObjMeta.  addr and size give the payload range used
by the range order; markState is the tri-color mark.  Modelled from the spec:
the field list lives in the absent tgc.h.  subPtrs models the result of
clsInfo->enumPtrs(meta) (tgc.cpp lines 164 and 186): the ids of the PtrBase
handles embedded in this object's payload at the ClassInfo's registered
sub-pointer offsets, in offset order. -/
structure ObjMeta where
  addr : Nat
  size : Nat
  markState : MarkColor
  subPtrs : List Nat
  deriving DecidableEq

/-- Range order ObjMeta::Less.  Modelled from the spec (the comparator body is
in the absent tgc.h; the gcptr.cpp variant at line 21 has the same order):
a is below b iff a's payload range ends at or before b's payload starts. -/
def metaLess (a b : ObjMeta) : Prop := a.addr + a.size ≤ b.addr

instance (a b : ObjMeta) : Decidable (metaLess a b) := by
  unfold metaLess; infer_instance

/-- State of class Collector (tgc.cpp lines 20-31).  ptrs and objs are the
heaps behind the PtrBase* and ObjMeta* pointers, indexed by id; pointers is
the registry vector (of handle ids); grayObjs is the gray work list, kept as
a stack whose head is the vector's back; metaSet is the ordered meta set,
as the sorted-by-address list of meta ids; nextSweeping is the positional
cursor corresponding to the MetaSet iterator.  dtors logs, in order, the ids
whose destructor thunk ran (the delete meta calls during sweeping). -/
structure Collector where
  ptrs : Nat → PtrBase
  objs : Nat → ObjMeta
  pointers : List Nat
  grayObjs : List Nat
  metaSet : List Nat
  nextRootMarking : Nat
  nextSweeping : Nat
  state : GcState
  dtors : List Nat

/-- Collector::tryMarkRoot (tgc.cpp lines 86-95): if the handle is a root and
its meta is Unmarked, color the meta Gray and push it onto grayObjs.  All
callers guard the null-meta case; a null meta is modelled as a no-op. -/
def tryMarkRoot (c : Collector) (hId : Nat) : Collector :=
  let p := c.ptrs hId
  if p.isRoot then
    match p.meta with
    | none => c
    | some m =>
      if (c.objs m).markState = MarkColor.Unmarked then
        { c with
          objs := Function.update c.objs m { c.objs m with markState := MarkColor.Gray },
          grayObjs := m :: c.grayObjs }
      else c
  else c

/-- Collector::onPointeeChanged (tgc.cpp lines 60-84), the write barrier.
During Sweeping the code dereferences the sweep iterator; a cursor at or past
the end of the set would be undefined behaviour in the source and is modelled
as a no-op (the collector never leaves the Sweeping state with the cursor at
the end). -/
def onPointeeChanged (c : Collector) (hId : Nat) : Collector :=
  let p := c.ptrs hId
  match p.meta with
  | none => c
  | some m =>
    match c.state with
    | GcState.RootMarking =>
      if p.index < c.nextRootMarking then tryMarkRoot c hId else c
    | GcState.ChildMarking => tryMarkRoot c hId
    | GcState.Sweeping =>
      if (c.objs m).markState = MarkColor.Unmarked then
        match c.metaSet[c.nextSweeping]? with
        | none => c
        | some cm =>
          if metaLess (c.objs m) (c.objs cm) then c
          else
            { c with
              objs := Function.update c.objs m { c.objs m with markState := MarkColor.Alive } }
      else c

/-- Collector::registerPtr (tgc.cpp lines 97-111).  The fresh handle gets
index = pointers.size() and is appended; if an object is under construction
and an owner meta is found for the handle's address, the handle is demoted to
a sub-pointer (isRoot = 0).  The address-based owner lookup findOwnerMeta is
the lower-bound search embedded separately as findOwnerObjInfo; here its
result arrives as the owner argument, and the ClassInfo::registerSubPtr call
it guards is embedded separately as registerSubPtr. -/
def registerPtr (c : Collector) (hId : Nat) (meta0 : Option Nat) (creating : Bool)
    (owner : Option Nat) : Collector :=
  let p : PtrBase := { meta := meta0, isRoot := true, index := c.pointers.length }
  let c1 := { c with ptrs := Function.update c.ptrs hId p, pointers := c.pointers ++ [hId] }
  if creating then
    match owner with
    | some _ =>
      { c1 with ptrs := Function.update c1.ptrs hId { p with isRoot := false } }
    | none => c1
  else c1

/-- Collector::unregisterPtr (tgc.cpp lines 124-150).  If the handle is the
registry's back, pop it and return.  Otherwise swap it with the back, give the
displaced handle the removed handle's index, pop, and, when the displaced
handle has a meta and the collector is root-marking with the cursor already
past the removed slot, re-run tryMarkRoot on the displaced handle.  The
registry is never empty here in the source (the handle being removed is
registered); an empty registry is modelled as a no-op. -/
def unregisterPtr (c : Collector) (hId : Nat) : Collector :=
  if c.pointers.getLast? = some hId then
    { c with pointers := c.pointers.dropLast }
  else
    match c.pointers.getLast? with
    | none => c
    | some last =>
      let i := (c.ptrs hId).index
      let c1 := { c with
        pointers := (c.pointers.set i last).dropLast,
        ptrs := Function.update c.ptrs last { c.ptrs last with index := i } }
      match (c1.ptrs last).meta with
      | none => c1
      | some _ =>
        if c1.state = GcState.RootMarking then
          if i < c1.nextRootMarking then tryMarkRoot c1 last else c1
        else c1

/-- Loop body of the root-marking sub-pointer pass (tgc.cpp lines 164-167):
every handle enumerated inside the pointee is stripped of its root flag. -/
def clearSubRoots (c : Collector) (hs : List Nat) : Collector :=
  hs.foldl
    (fun acc h =>
      { acc with ptrs := Function.update acc.ptrs h { acc.ptrs h with isRoot := false } })
    c

/-- One unit of RootMarking work (tgc.cpp lines 158-170): read the handle at
the cursor, skip it if its meta is null, otherwise clear the root flag of
every sub-handle inside the pointee and tryMarkRoot the handle; the cursor
advances either way. -/
def rootMarkingStep (c : Collector) : Collector :=
  match c.pointers[c.nextRootMarking]? with
  | none => { c with nextRootMarking := c.nextRootMarking + 1 }
  | some hId =>
    match (c.ptrs hId).meta with
    | none => { c with nextRootMarking := c.nextRootMarking + 1 }
    | some m =>
      let c1 := clearSubRoots c (c.objs m).subPtrs
      let c2 := tryMarkRoot c1 hId
      { c2 with nextRootMarking := c2.nextRootMarking + 1 }

/-- RootMarking loop of Collector::collect (tgc.cpp lines 158-170), with the C
post-decrement semantics of stepCnt-- > 0: the budget is decremented whenever
the cursor test succeeds, even on the exiting test.  The fuel argument is the
number of iterations still permitted by the budget; the wrapper below passes
stepCnt.toNat, which bounds the iteration count exactly, so the fuel never
runs out before the budget does. -/
def rootMarkingLoopAux : Nat → Collector → Int → Collector × Int
  | 0, c, s =>
    if c.nextRootMarking < c.pointers.length then (c, s - 1) else (c, s)
  | fuel + 1, c, s =>
    if c.nextRootMarking < c.pointers.length then
      if 0 < s then rootMarkingLoopAux fuel (rootMarkingStep c) (s - 1)
      else (c, s - 1)
    else (c, s)

/-- RootMarking loop at its real budget. -/
def rootMarkingLoop (c : Collector) (s : Int) : Collector × Int :=
  rootMarkingLoopAux s.toNat c s

/-- Append of an Unmarked child onto the gray work list, the body of the
child enumeration in tgc.cpp lines 187-195: a sub-handle whose meta is null is
skipped without any dereference; a sub-handle whose meta is Unmarked has that
meta pushed. -/
def pushChildren (c : Collector) (hs : List Nat) : Collector :=
  hs.foldl
    (fun acc h =>
      match (acc.ptrs h).meta with
      | none => acc
      | some m =>
        if (acc.objs m).markState = MarkColor.Unmarked then
          { acc with grayObjs := m :: acc.grayObjs }
        else acc)
    c

/-- One ChildMarking work unit (tgc.cpp lines 181-196): pop the back of
grayObjs, set its mark to Alive, then enumerate its sub-handles and push every
non-null Unmarked child meta. -/
def childStep (c : Collector) : Collector :=
  match c.grayObjs with
  | [] => c
  | o :: rest =>
    let c1 := { c with
      grayObjs := rest,
      objs := Function.update c.objs o { c.objs o with markState := MarkColor.Alive } }
    pushChildren c1 (c1.objs o).subPtrs

/-- ChildMarking loop of Collector::collect (tgc.cpp lines 180-197).  The
inner child enumeration charges one budget unit per enumerated sub-handle
(the for-loop decrements stepCnt after each child) and never exits early, so
a pop consumes 1 + number-of-sub-handles budget units.  Fuel as in
rootMarkingLoopAux. -/
def childMarkingLoopAux : Nat → Collector → Int → Collector × Int
  | 0, c, s => if c.grayObjs = [] then (c, s) else (c, s - 1)
  | fuel + 1, c, s =>
    match c.grayObjs with
    | [] => (c, s)
    | o :: _ =>
      if 0 < s then
        childMarkingLoopAux fuel (childStep c) (s - 1 - ((c.objs o).subPtrs.length : Int))
      else (c, s - 1)

/-- ChildMarking loop at its real budget. -/
def childMarkingLoop (c : Collector) (s : Int) : Collector × Int :=
  childMarkingLoopAux s.toNat c s

/-- Sweeping loop of Collector::collect (tgc.cpp lines 207-216): at the
cursor, an Unmarked meta is erased from the set (the positional cursor then
already addresses the next element) and deleted — its destructor runs, logged
in dtors — while any other meta has its mark reset to Unmarked and the cursor
advances. -/
def sweepLoopAux : Nat → Collector → Int → Collector × Int
  | 0, c, s =>
    if c.nextSweeping < c.metaSet.length then (c, s - 1) else (c, s)
  | fuel + 1, c, s =>
    match c.metaSet[c.nextSweeping]? with
    | none => (c, s)
    | some m =>
      if 0 < s then
        if (c.objs m).markState = MarkColor.Unmarked then
          sweepLoopAux fuel
            { c with
              metaSet := c.metaSet.eraseIdx c.nextSweeping,
              dtors := c.dtors ++ [m] }
            (s - 1)
        else
          sweepLoopAux fuel
            { c with
              objs := Function.update c.objs m { c.objs m with markState := MarkColor.Unmarked },
              nextSweeping := c.nextSweeping + 1 }
            (s - 1)
      else (c, s - 1)

/-- Sweeping loop at its real budget. -/
def sweepLoop (c : Collector) (s : Int) : Collector × Int :=
  sweepLoopAux s.toNat c s

/-- Tail of Collector::collect from the _Sweeping label (tgc.cpp lines
205-222): run the sweeping loop; if the cursor reached the end of the set,
move to RootMarking and report (third component) whether the goto back to
_RootMarking fires, which the source does exactly when the meta set is
non-empty. -/
def collectCoreSweep (c : Collector) (s : Int) : Collector × Int × Bool :=
  let r := sweepLoop c s
  if r.1.metaSet.length ≤ r.1.nextSweeping then
    ({ r.1 with state := GcState.RootMarking }, r.2, !r.1.metaSet.isEmpty)
  else (r.1, r.2, false)

/-- Tail of Collector::collect from the _ChildMarking label (tgc.cpp lines
178-203): run the child-marking loop; when the gray list is drained, move to
Sweeping with the cursor at the set's begin and fall through. -/
def collectCoreChild (c : Collector) (s : Int) : Collector × Int × Bool :=
  let r := childMarkingLoop c s
  if r.1.grayObjs = [] then
    collectCoreSweep { r.1 with state := GcState.Sweeping, nextSweeping := 0 } r.2
  else (r.1, r.2, false)

/-- Straight-line pass of Collector::collect (tgc.cpp lines 152-224) from the
current state through at most one Sweeping phase; the Bool reports the
backward goto _RootMarking. -/
def collectCore (c : Collector) (s : Int) : Collector × Int × Bool :=
  match c.state with
  | GcState.RootMarking =>
    let r := rootMarkingLoop c s
    if r.1.pointers.length ≤ r.1.nextRootMarking then
      collectCoreChild
        { r.1 with state := GcState.ChildMarking, nextRootMarking := 0 } r.2
    else (r.1, r.2, false)
  | GcState.ChildMarking => collectCoreChild c s
  | GcState.Sweeping => collectCoreSweep c s

/-- Backward-goto loop of Collector::collect.  Each fired goto either comes
from a sweep that visited at least one element — consuming at least one
positive budget unit, so the budget's toNat strictly drops — or from the one
possible degenerate entry (called directly in Sweeping with the cursor already
at the end), after which the state is RootMarking; hence stepCnt.toNat + 2
passes always suffice — theorem collectAux_fuel_sufficient below shows any
larger fuel yields the same result, so the bounded recursion computes the
same collector as the unbounded goto loop of the source. -/
def collectAux : Nat → Collector → Int → Collector
  | 0, c, _ => c
  | fuel + 1, c, s =>
    let r := collectCore c s
    if r.2.2 then collectAux fuel r.1 r.2.1 else r.1

/-- Collector::collect (tgc.cpp lines 152-224) at step budget s. -/
def collect (c : Collector) (s : Int) : Collector :=
  collectAux (s.toNat + 2) c s

/-- Metas directly referenced by the registered sub-pointers of object m (the
handles enumPtrs yields for m, with null references dropped). -/
def childrenOf (c : Collector) (m : Nat) : List Nat :=
  (c.objs m).subPtrs.filterMap (fun h => (c.ptrs h).meta)

/-- Metas held by root handles in the registry. -/
def rootMetas (c : Collector) : List Nat :=
  c.pointers.filterMap (fun h => if (c.ptrs h).isRoot then (c.ptrs h).meta else none)

/-- Bounded closure step for reachability. -/
def reachIter (c : Collector) : Nat → List Nat → List Nat
  | 0, acc => acc
  | n + 1, acc => reachIter c n ((acc ++ acc.foldr (fun m r => childrenOf c m ++ r) []).dedup)

/-- Metas reachable from the root handles through registered sub-pointers;
metaSet.length closure rounds suffice for any chain inside the set. -/
def reachable (c : Collector) : List Nat :=
  reachIter c c.metaSet.length (rootMetas c)

/-- Garbage: metas in the set unreachable from every root handle. -/
def garbage (c : Collector) : List Nat :=
  c.metaSet.filter (fun m => !(reachable c).contains m)

/-- Strict tri-color property claimed for the ChildMarking state: no Alive
object references (through a registered sub-pointer) an Unmarked object, and
the gray work list holds exactly the Gray metas of the set. -/
def strictTriColor (c : Collector) : Prop :=
  (∀ m ∈ c.metaSet, (c.objs m).markState = MarkColor.Alive →
    ∀ m2 ∈ childrenOf c m, (c.objs m2).markState ≠ MarkColor.Unmarked) ∧
  (∀ m ∈ c.metaSet, ((c.objs m).markState = MarkColor.Gray ↔ m ∈ c.grayObjs))

instance (c : Collector) : Decidable (strictTriColor c) := by
  unfold strictTriColor; infer_instance

/-- Weak tri-color property the code actually maintains: every sub-pointer
target of an Alive object is itself Alive or sits in the gray work list, and
every Gray object sits in the gray work list (which may also hold Unmarked
objects, since tgc.cpp pushes children without recoloring them). -/
def weakTriColor (c : Collector) : Prop :=
  (∀ m, (c.objs m).markState = MarkColor.Alive →
    ∀ m2 ∈ childrenOf c m, (c.objs m2).markState = MarkColor.Alive ∨ m2 ∈ c.grayObjs) ∧
  (∀ m, (c.objs m).markState = MarkColor.Gray → m ∈ c.grayObjs)

/-- Sweeping-phase invariant of claim C10: whenever the collector is in the
Sweeping state, the gray work list is empty. -/
def sweepInv (c : Collector) : Prop :=
  c.state = GcState.Sweeping → c.grayObjs = []

/-- Registry index invariant over a handle heap and a registry list: the
handle stored at slot i carries index i. -/
def regInvOn (ptrs : Nat → PtrBase) (l : List Nat) : Prop :=
  ∀ (i : Nat) (hi : i < l.length), (ptrs (l.get ⟨i, hi⟩)).index = i

/-- Registry index invariant of claim C4: pointers[i].index == i for every
valid index i. -/
def regInv (c : Collector) : Prop :=
  regInvOn c.ptrs c.pointers

/-- ObjInfo of gcptr.cpp (lines 13-27): payload address plus the owning
ClassInfo's size, which together give the payload range.  The mark color is
irrelevant to the owner lookup and omitted here. -/
structure ObjInfo where
  obj : Nat
  size : Nat
  deriving DecidableEq

/-- ObjInfo::Less (gcptr.cpp line 21): x is below y iff x's payload range ends
at or before y's payload starts. -/
def objInfoLess (x y : ObjInfo) : Prop := x.obj + x.size ≤ y.obj

instance (x y : ObjInfo) : Decidable (objInfoLess x y) := by
  unfold objInfoLess; infer_instance

/-- ObjInfo::containsPointer (gcptr.cpp line 26). -/
def containsPointer (o : ObjInfo) (p : Nat) : Prop := o.obj ≤ p ∧ p < o.obj + o.size

instance (o : ObjInfo) (p : Nat) : Decidable (containsPointer o p) := by
  unfold containsPointer; infer_instance

/-- Lower bound of the dummy info for addr in the ordered set, represented as
the ascending list of its elements: std::set::lower_bound returns the first
element e with not (e < dummy), where the dummy has payload addr and size 0,
that is the first e with addr < e.obj + e.size. -/
def lowerBound (l : List ObjInfo) (addr : Nat) : Option ObjInfo :=
  l.find? (fun e => decide (addr < e.obj + e.size))

/-- GC::findOwnerObjInfo (gcptr.cpp lines 57-65), the same lower-bound lookup
as Collector::findOwnerMeta (tgc.cpp lines 113-122): take the lower bound of
the dummy; return null when it is the end; otherwise check containment and
return null when addr lies outside the candidate's payload range. -/
def findOwnerObjInfo (l : List ObjInfo) (addr : Nat) : Option ObjInfo :=
  match lowerBound l addr with
  | none => none
  | some e => if containsPointer e addr then some e else none

/-- Registration states of ClassInfo (declared in the absent tgc.h; the three
states come from the spec, and only Registered is inspected by
ClassInfo::registerSubPtr in tgc.cpp). -/
inductive CIState where
  | Unregistered
  | Registering
  | Registered
  deriving DecidableEq

/-- ClassInfo as ClassInfo::registerSubPtr sees it: the registration state and
the learned sub-pointer offset sequence.  Offsets carry the value of the local
short variable offset of tgc.cpp line 287 (the handle address minus the owner
payload address, truncated to short). -/
structure ClassInfo where
  state : CIState
  subPtrOffsets : List Int
  deriving DecidableEq

/-- ClassInfo::registerSubPtr (tgc.cpp lines 286-302): once Registered, return
unchanged; if the sequence is non-empty and the offset does not exceed its
back, return unchanged (constructor recursed); otherwise append the offset. -/
def registerSubPtr (ci : ClassInfo) (offset : Int) : ClassInfo :=
  if ci.state = CIState.Registered then ci
  else
    match ci.subPtrOffsets.getLast? with
    | some b =>
      if offset ≤ b then ci
      else { ci with subPtrOffsets := ci.subPtrOffsets ++ [offset] }
    | none => { ci with subPtrOffsets := ci.subPtrOffsets ++ [offset] }

/-- Handle gc_ptr of gcptr.h: the raw payload pointer (0 when null) and the
nullable ObjInfo back-reference, here an id.  The PointerBase owner field
plays no part in the assignment operators and is omitted. -/
structure GcPtr where
  ptr : Nat
  objInfo : Option Nat
  deriving DecidableEq

/-- Default-constructed gc_ptr (gcptr.h line 74 with PointerBase's
initialization): null pointer, null objInfo. -/
def gcPtrNull : GcPtr := { ptr := 0, objInfo := none }

/-- gc_ptr::reset(T* o, ObjInfo* n) (gcptr.h line 98): store both fields, then
run the write barrier onPointerUpdate; the Bool reports that the write barrier
ran. -/
def gcPtrReset (o : Nat) (n : Option Nat) : GcPtr × Bool :=
  ({ ptr := o, objInfo := n }, true)

/-- Move assignment gc_ptr::operator=(gc_ptr&& r) (gcptr.h line 87):
reset(r.ptr, r.objInfo) on the target, then r.objInfo = 0 — and nothing else —
on the source.  Result: new target, new source, whether the write barrier ran
on the target. -/
def gcPtrMoveAssign (_target source : GcPtr) : GcPtr × GcPtr × Bool :=
  let r := gcPtrReset source.ptr source.objInfo
  (r.1, { source with objInfo := none }, r.2)

/-- gc_ptr::operator bool (gcptr.h line 89): tests the raw pointer. -/
def gcPtrToBool (p : GcPtr) : Bool := p.ptr != 0

/-- gc_ptr::operator== (gcptr.h line 90): handle equality compares the
objInfo fields only. -/
def gcPtrEq (a b : GcPtr) : Bool := a.objInfo == b.objInfo

/-- Handle heap of the two-object scenario S2-style chain A -> B: handle 0 is
the application's root to A (meta 0), handle 1 is the sub-pointer embedded in
A referencing B (meta 1), already demoted to non-root at registration. -/
def ptrsChain : Nat → PtrBase := fun h =>
  if h = 0 then { meta := some 0, isRoot := true, index := 0 }
  else if h = 1 then { meta := some 1, isRoot := false, index := 1 }
  else { meta := none, isRoot := true, index := 0 }

/-- Meta heap of the chain scenario: A (id 0) at addresses 100..115 holds the
sub-handle 1; B (id 1) at 200..215 holds none. -/
def objsChain : Nat → ObjMeta := fun m =>
  if m = 0 then { addr := 100, size := 16, markState := MarkColor.Unmarked, subPtrs := [1] }
  else if m = 1 then { addr := 200, size := 16, markState := MarkColor.Unmarked, subPtrs := [] }
  else { addr := 0, size := 0, markState := MarkColor.Unmarked, subPtrs := [] }

/-- Initial collector of the chain scenario, at the start of a cycle. -/
def chainInit : Collector :=
  { ptrs := ptrsChain, objs := objsChain, pointers := [0, 1], grayObjs := [],
    metaSet := [0, 1], nextRootMarking := 0, nextSweeping := 0,
    state := GcState.RootMarking, dtors := [] }

/-- Handle heap of the S1-style scenario: one root handle to A (meta 0); the
second allocation B (meta 1) has no handle left referencing it. -/
def ptrsDrop : Nat → PtrBase := fun h =>
  if h = 0 then { meta := some 0, isRoot := true, index := 0 }
  else { meta := none, isRoot := true, index := 0 }

/-- Meta heap of the dropped scenario: B (id 1) at addresses 50..65 precedes
A (id 0) at 100..115 in address order. -/
def objsDrop : Nat → ObjMeta := fun m =>
  if m = 0 then { addr := 100, size := 16, markState := MarkColor.Unmarked, subPtrs := [] }
  else if m = 1 then { addr := 50, size := 16, markState := MarkColor.Unmarked, subPtrs := [] }
  else { addr := 0, size := 0, markState := MarkColor.Unmarked, subPtrs := [] }

/-- Initial collector of the dropped scenario: two allocations, one garbage. -/
def dropInit : Collector :=
  { ptrs := ptrsDrop, objs := objsDrop, pointers := [0], grayObjs := [],
    metaSet := [1, 0], nextRootMarking := 0, nextSweeping := 0,
    state := GcState.RootMarking, dtors := [] }

instance (c : Collector) : Decidable (regInv c) := by
  unfold regInv regInvOn
  infer_instance

/-- Metas the child-enumeration loop of tgc.cpp lines 187-195 pushes for the
handle list hs: a handle with null meta contributes nothing (it is skipped
before any dereference), a handle with an Unmarked meta contributes that
meta, any other handle contributes nothing. -/
def eligibleOf (c : Collector) (hs : List Nat) : List Nat :=
  hs.filterMap (fun h =>
    match (c.ptrs h).meta with
    | none => none
    | some m => if (c.objs m).markState = MarkColor.Unmarked then some m else none)

/-- Collector state used as a small witness input: one gray object, no
handles, no sub-pointers. -/
def childWitness : Collector :=
  { ptrs := fun _ => { meta := none, isRoot := true, index := 0 },
    objs := fun _ => { addr := 0, size := 1, markState := MarkColor.Unmarked, subPtrs := [] },
    pointers := [], grayObjs := [5], metaSet := [], nextRootMarking := 0,
    nextSweeping := 0, state := GcState.ChildMarking, dtors := [] }

/-- Sweeping-state variant of the dropped scenario, used as witness input. -/
def sweepWitness : Collector := { dropInit with state := GcState.Sweeping }

instance (c : Collector) : Decidable (sweepInv c) := by
  unfold sweepInv
  infer_instance

/-- Metas swept (destructed) by a full pass over the list l under the object
heap objs: those Unmarked. -/
def sweptOf (objs : Nat → ObjMeta) (l : List Nat) : List Nat :=
  l.filter (fun m => decide ((objs m).markState = MarkColor.Unmarked))

/-- Metas kept by a full pass over the list l under the object heap objs:
those not Unmarked. -/
def keptOf (objs : Nat → ObjMeta) (l : List Nat) : List Nat :=
  l.filter (fun m => !decide ((objs m).markState = MarkColor.Unmarked))

/-- Scenario with a live root handle and two unreferenced allocations: handle
0 keeps A (meta 0) reachable while B (meta 1) and C (meta 2) are garbage. -/
def ptrsDropTwo : Nat → PtrBase := fun h =>
  if h = 0 then { meta := some 0, isRoot := true, index := 0 }
  else { meta := none, isRoot := true, index := 0 }

/-- Meta heap of the two-garbage scenario: B (id 1) at 50..65, A (id 0) at
100..115, C (id 2) at 200..215, none holding sub-pointers. -/
def objsDropTwo : Nat → ObjMeta := fun m =>
  if m = 0 then { addr := 100, size := 16, markState := MarkColor.Unmarked, subPtrs := [] }
  else if m = 1 then { addr := 50, size := 16, markState := MarkColor.Unmarked, subPtrs := [] }
  else { addr := 200, size := 16, markState := MarkColor.Unmarked, subPtrs := [] }

/-- Initial collector of the two-garbage scenario: a non-empty registry and
three allocations, two of them garbage. -/
def dropTwoInit : Collector :=
  { ptrs := ptrsDropTwo, objs := objsDropTwo, pointers := [0], grayObjs := [],
    metaSet := [1, 0, 2], nextRootMarking := 0, nextSweeping := 0,
    state := GcState.RootMarking, dtors := [] }

/-- Quiescent between-cycles scenario with a single unreferenced
allocation. -/
def oneObjInit : Collector :=
  { ptrs := fun _ => { meta := none, isRoot := true, index := 0 },
    objs := fun m =>
      { addr := 10 * m, size := 4, markState := MarkColor.Unmarked, subPtrs := [] },
    pointers := [], grayObjs := [], metaSet := [7], nextRootMarking := 0,
    nextSweeping := 0, state := GcState.RootMarking, dtors := [] }

/-- Claim C9, counterexample: after handle = move(handle2) the source's
boolean conversion is not false when the moved-from handle pointed at a
non-null payload — gc_ptr::operator=(gc_ptr&&) clears objInfo but leaves the
raw ptr field, and operator bool tests ptr. -/
theorem claim_C9_cex :
    ¬ gcPtrToBool (gcPtrMoveAssign gcPtrNull { ptr := 5, objInfo := some 1 }).2.1 = false := by
  decide

/-- Claim C9 (amended): handle = move(handle2) transfers the source's pointee
and meta to the target, the write barrier runs on the target, and the source's
objInfo becomes null — so meta-based equality sees the source as null — but
the source's boolean conversion still tests the stale raw pointer, staying
true whenever the moved-from handle's payload pointer was non-null. -/
theorem claim_C9 (t s : GcPtr) :
    gcPtrMoveAssign t s =
      ({ ptr := s.ptr, objInfo := s.objInfo }, { ptr := s.ptr, objInfo := none }, true) ∧
    gcPtrEq { ptr := s.ptr, objInfo := none } gcPtrNull = true ∧
    gcPtrToBool { ptr := s.ptr, objInfo := none } = (s.ptr != 0) := by
  cases s
  refine ⟨rfl, ?_, rfl⟩
  simp [gcPtrEq, gcPtrNull]

theorem findOwner_mem_iff (addr : Nat) :
    ∀ (l : List ObjInfo), l.Pairwise objInfoLess →
      ∀ e, (findOwnerObjInfo l addr = some e ↔ e ∈ l ∧ containsPointer e addr) := by
  intro l
  induction l with
  | nil => intro _ e; simp [findOwnerObjInfo, lowerBound]
  | cons h t ih =>
    intro hp e
    rcases List.pairwise_cons.mp hp with ⟨hh, ht⟩
    by_cases hc : addr < h.obj + h.size
    · rw [findOwnerObjInfo, lowerBound, List.find?_cons_of_pos _ (by simpa using hc)]
      by_cases hcontains : containsPointer h addr
      · simp only [hcontains, if_pos, Option.some.injEq]
        constructor
        · rintro rfl; exact ⟨List.mem_cons_self _ _, hcontains⟩
        · rintro ⟨hmem, hce⟩
          rcases List.mem_cons.mp hmem with rfl | hmt
          · rfl
          · exact absurd (lt_of_lt_of_le hc (le_trans (hh e hmt) hce.1)) (lt_irrefl _)
      · simp only [hcontains, if_neg, not_false_iff]
        constructor
        · intro hfalse; exact absurd hfalse (by simp)
        · rintro ⟨hmem, hce⟩
          rcases List.mem_cons.mp hmem with rfl | hmt
          · exact absurd hce hcontains
          · exact absurd (lt_of_lt_of_le hc (le_trans (hh e hmt) hce.1)) (lt_irrefl _)
    · rw [findOwnerObjInfo, lowerBound, List.find?_cons_of_neg _ (by simpa using hc)]
      rw [← lowerBound, ← findOwnerObjInfo]
      rw [ih ht e]
      constructor
      · rintro ⟨hmt, hce⟩; exact ⟨List.mem_cons_of_mem _ hmt, hce⟩
      · rintro ⟨hmem, hce⟩
        rcases List.mem_cons.mp hmem with rfl | hmt
        · exact absurd hce.2 hc
        · exact ⟨hmt, hce⟩

/-- Claim C3: over a meta set whose payload ranges are pairwise ordered and
disjoint (the std::set invariant, Pairwise of the range order), the
lower-bound-plus-containment lookup returns exactly the unique ObjInfo whose
payload range contains addr, and null when no element contains addr —
including when the lower bound reaches the end of the set. -/
theorem claim_C3 (l : List ObjInfo) (addr : Nat) (hp : l.Pairwise objInfoLess) :
    (∀ e, findOwnerObjInfo l addr = some e ↔ e ∈ l ∧ containsPointer e addr) ∧
    ((∀ e ∈ l, ¬ containsPointer e addr) → findOwnerObjInfo l addr = none) := by
  refine ⟨findOwner_mem_iff addr l hp, ?_⟩
  intro hno
  cases hfo : findOwnerObjInfo l addr with
  | none => rfl
  | some e =>
    rcases (findOwner_mem_iff addr l hp e).mp hfo with ⟨hmem, hce⟩
    exact absurd hce (hno e hmem)

/-- Claim C3, witness: a three-element set with ranges 10..19, 30..34, 50..69;
address 32 is owned by the middle element, address 40 by none. -/
theorem claim_C3_witness :
    ([⟨10, 10⟩, ⟨30, 5⟩, ⟨50, 20⟩] : List ObjInfo).Pairwise objInfoLess ∧
    (findOwnerObjInfo [⟨10, 10⟩, ⟨30, 5⟩, ⟨50, 20⟩] 32 = some ⟨30, 5⟩ ↔
      (⟨30, 5⟩ : ObjInfo) ∈ [⟨10, 10⟩, ⟨30, 5⟩, ⟨50, 20⟩] ∧ containsPointer ⟨30, 5⟩ 32) := by
  refine ⟨by decide, (claim_C3 [⟨10, 10⟩, ⟨30, 5⟩, ⟨50, 20⟩] 32 (by decide)).1 _⟩

/-- Claim C8: ClassInfo::registerSubPtr only ever appends to subPtrOffsets
(the result is the old sequence or the old sequence with the offset appended),
keeps the sequence strictly increasing (the offset is appended only when the
sequence is empty or the offset exceeds its back), and leaves a Registered
ClassInfo entirely unchanged. -/
theorem claim_C8 (ci : ClassInfo) (offset : Int)
    (hc : ci.subPtrOffsets.Chain' (· < ·)) :
    ((registerSubPtr ci offset).subPtrOffsets = ci.subPtrOffsets ∨
      (registerSubPtr ci offset).subPtrOffsets = ci.subPtrOffsets ++ [offset]) ∧
    (registerSubPtr ci offset).subPtrOffsets.Chain' (· < ·) ∧
    (ci.state = CIState.Registered → registerSubPtr ci offset = ci) := by
  have hap : (∀ x ∈ ci.subPtrOffsets.getLast?, x < offset) →
      (ci.subPtrOffsets ++ [offset]).Chain' (· < ·) :=
    fun hlt => List.Chain'.append hc (List.chain'_singleton _)
      (fun x hx y hy => by
        simp only [List.head?_cons, Option.mem_def, Option.some.injEq] at hy
        exact hy ▸ hlt x hx)
  unfold registerSubPtr
  by_cases hreg : ci.state = CIState.Registered
  · rw [if_pos hreg]
    exact ⟨Or.inl rfl, hc, fun _ => rfl⟩
  · rw [if_neg hreg]
    cases hlast : ci.subPtrOffsets.getLast? with
    | none =>
      refine ⟨Or.inr rfl, hap ?_, fun hr => absurd hr hreg⟩
      intro x hx
      rw [hlast] at hx
      exact absurd hx (by simp)
    | some b =>
      dsimp only
      by_cases hle : offset ≤ b
      · rw [if_pos hle]
        exact ⟨Or.inl rfl, hc, fun hr => absurd hr hreg⟩
      · rw [if_neg hle]
        refine ⟨Or.inr rfl, hap ?_, fun hr => absurd hr hreg⟩
        intro x hx
        rw [hlast] at hx
        simp only [Option.mem_def, Option.some.injEq] at hx
        omega

/-- Claim C8, witness: a Registering ClassInfo with offsets 0, 8 receiving
offset 16. -/
theorem claim_C8_witness :
    (([0, 8] : List Int).Chain' (· < ·)) ∧
    ((registerSubPtr ⟨CIState.Registering, [0, 8]⟩ 16).subPtrOffsets = [0, 8] ∨
      (registerSubPtr ⟨CIState.Registering, [0, 8]⟩ 16).subPtrOffsets = [0, 8] ++ [16]) := by
  have hch : (([0, 8] : List Int).Chain' (· < ·)) := by
    simp [List.chain'_cons, List.chain'_singleton]
  exact ⟨hch, (claim_C8 ⟨CIState.Registering, [0, 8]⟩ 16 hch).1⟩

theorem tryMarkRoot_frame (c : Collector) (h : Nat) :
    (tryMarkRoot c h).ptrs = c.ptrs ∧ (tryMarkRoot c h).pointers = c.pointers ∧
    (tryMarkRoot c h).metaSet = c.metaSet ∧ (tryMarkRoot c h).state = c.state ∧
    (tryMarkRoot c h).nextRootMarking = c.nextRootMarking ∧
    (tryMarkRoot c h).nextSweeping = c.nextSweeping ∧
    (tryMarkRoot c h).dtors = c.dtors := by
  unfold tryMarkRoot
  dsimp only
  repeat' split
  all_goals exact ⟨rfl, rfl, rfl, rfl, rfl, rfl, rfl⟩

theorem regInv_tryMarkRoot (c : Collector) (h : Nat) (hinv : regInv c) :
    regInv (tryMarkRoot c h) := by
  unfold regInv
  rw [(tryMarkRoot_frame c h).1, (tryMarkRoot_frame c h).2.1]
  exact hinv

theorem regInvOn_append (ptrs : Nat → PtrBase) (l : List Nat) (hId : Nat) (p : PtrBase)
    (hnot : hId ∉ l) (hidx : p.index = l.length) (hinv : regInvOn ptrs l) :
    regInvOn (Function.update ptrs hId p) (l ++ [hId]) := by
  intro i hi
  have hlen : (l ++ [hId]).length = l.length + 1 := by simp
  rw [List.get_eq_getElem]
  rcases Nat.lt_or_ge i l.length with hlt | hge
  · rw [List.getElem_append_left hlt]
    have hmem2 : l[i] ∈ l := List.getElem_mem hlt
    have hne : l[i] ≠ hId := fun he => hnot (he ▸ hmem2)
    rw [Function.update_noteq hne]
    have h1 := hinv i hlt
    rw [List.get_eq_getElem] at h1
    exact h1
  · have hieq : i = l.length := by rw [hlen] at hi; omega
    subst hieq
    rw [List.getElem_concat_length _ _ _ rfl]
    rw [Function.update_same]
    exact hidx

/-- Claim C4: from any registry satisfying pointers[i].index == i, a handle
registration (append with index = pointers.size()) and a handle
deregistration (swap the removed slot with the back, fix the displaced
handle's index, truncate) both preserve the invariant, so it holds after any
sequence of such operations. -/
theorem claim_C4 (c : Collector) (hinv : regInv c) :
    (∀ hId meta0 creating owner, hId ∉ c.pointers →
      regInv (registerPtr c hId meta0 creating owner)) ∧
    (∀ hId, hId ∈ c.pointers → regInv (unregisterPtr c hId)) := by
  constructor
  · intro hId meta0 creating owner hnot
    simp only [registerPtr]
    by_cases hcr : creating = true
    · rw [if_pos hcr]
      cases owner with
      | some o =>
        unfold regInv
        dsimp only
        rw [Function.update_idem]
        exact regInvOn_append _ _ _ _ hnot rfl hinv
      | none =>
        unfold regInv
        dsimp only
        exact regInvOn_append _ _ _ _ hnot rfl hinv
    · rw [if_neg hcr]
      unfold regInv
      dsimp only
      exact regInvOn_append _ _ _ _ hnot rfl hinv
  · intro hId hmem
    unfold unregisterPtr
    by_cases hback : c.pointers.getLast? = some hId
    · rw [if_pos hback]
      intro i hi
      have hlen : c.pointers.dropLast.length = c.pointers.length - 1 :=
        List.length_dropLast c.pointers
      have hi2 : i < c.pointers.length := by
        have := hi
        dsimp only at this
        omega
      dsimp only
      rw [List.get_eq_getElem]
      rw [List.getElem_dropLast]
      have h1 := hinv i hi2
      rw [List.get_eq_getElem] at h1
      exact h1
    · rw [if_neg hback]
      cases hlast : c.pointers.getLast? with
      | none => exact hinv
      | some last =>
        dsimp only
        obtain ⟨k, hk, hgetk⟩ := List.mem_iff_getElem.mp hmem
        have hidx : (c.ptrs hId).index = k := by
          have h1 := hinv k hk
          rw [List.get_eq_getElem, hgetk] at h1
          exact h1
        have hne : c.pointers ≠ [] := List.ne_nil_of_mem hmem
        have hn1 : c.pointers.length - 1 < c.pointers.length := by
          have := List.length_pos.mpr hne
          omega
        have hlastel : c.pointers[c.pointers.length - 1] = last := by
          have h1 := List.getLast?_eq_getElem? c.pointers
          rw [hlast, List.getElem?_eq_getElem hn1] at h1
          exact (Option.some.inj h1).symm
        have hkne : k ≠ c.pointers.length - 1 := by
          intro heq
          apply hback
          rw [hlast]
          subst heq
          rw [← hgetk, hlastel]
        have hklt : k < c.pointers.length - 1 := by omega
        rw [hidx]
        have hinv1 : regInvOn
            (Function.update c.ptrs last { c.ptrs last with index := k })
            ((c.pointers.set k last).dropLast) := by
          intro i hi
          have hlen2 : ((c.pointers.set k last).dropLast).length = c.pointers.length - 1 := by
            rw [List.length_dropLast, List.length_set]
          have hi2 : i < c.pointers.length - 1 := hlen2 ▸ hi
          have hi3 : i < (c.pointers.set k last).length := by
            rw [List.length_set]; omega
          have hi4 : i < c.pointers.length := by omega
          rw [List.get_eq_getElem, List.getElem_dropLast, List.getElem_set]
          by_cases hik : k = i
          · rw [if_pos hik, Function.update_same]
            exact hik
          · rw [if_neg hik]
            have hne2 : c.pointers[i] ≠ last := by
              intro heq
              have h1 := hinv i hi4
              have h2 := hinv (c.pointers.length - 1) hn1
              rw [List.get_eq_getElem, heq] at h1
              rw [List.get_eq_getElem, hlastel] at h2
              omega
            rw [Function.update_noteq hne2]
            have h1 := hinv i hi4
            rw [List.get_eq_getElem] at h1
            exact h1
        split
        · exact hinv1
        · split
          · split
            · exact regInv_tryMarkRoot _ _ hinv1
            · exact hinv1
          · exact hinv1

/-- Claim C4, witness: the chain scenario's registry satisfies the invariant
and keeps satisfying it after handle 0 is deregistered. -/
theorem claim_C4_witness :
    regInv chainInit ∧ 0 ∈ chainInit.pointers ∧ regInv (unregisterPtr chainInit 0) := by
  refine ⟨by decide, by decide, (claim_C4 chainInit (by decide)).2 0 (by decide)⟩

theorem eligibleOf_congr (c₁ c₂ : Collector) (hs : List Nat)
    (hp : c₁.ptrs = c₂.ptrs) (ho : c₁.objs = c₂.objs) :
    eligibleOf c₁ hs = eligibleOf c₂ hs := by
  unfold eligibleOf
  rw [hp, ho]

theorem pushChildren_frame (hs : List Nat) (c : Collector) :
    (pushChildren c hs).ptrs = c.ptrs ∧ (pushChildren c hs).objs = c.objs ∧
    (pushChildren c hs).pointers = c.pointers ∧ (pushChildren c hs).metaSet = c.metaSet ∧
    (pushChildren c hs).state = c.state ∧
    (pushChildren c hs).nextRootMarking = c.nextRootMarking ∧
    (pushChildren c hs).nextSweeping = c.nextSweeping ∧
    (pushChildren c hs).dtors = c.dtors := by
  induction hs generalizing c with
  | nil => exact ⟨rfl, rfl, rfl, rfl, rfl, rfl, rfl, rfl⟩
  | cons h t ih =>
    simp only [pushChildren, List.foldl_cons]
    cases hm : (c.ptrs h).meta with
    | none =>
      simp only [hm]
      exact ih c
    | some m =>
      simp only [hm]
      by_cases hu : (c.objs m).markState = MarkColor.Unmarked
      · rw [if_pos hu]
        exact ih { c with grayObjs := m :: c.grayObjs }
      · rw [if_neg hu]
        exact ih c

theorem pushChildren_grayObjs (hs : List Nat) (c : Collector) :
    (pushChildren c hs).grayObjs = (eligibleOf c hs).reverse ++ c.grayObjs := by
  induction hs generalizing c with
  | nil => simp [pushChildren, eligibleOf]
  | cons h t ih =>
    simp only [pushChildren, List.foldl_cons]
    cases hm : (c.ptrs h).meta with
    | none =>
      simp only [hm]
      show (pushChildren c t).grayObjs = _
      rw [ih c]
      simp [eligibleOf, hm]
    | some m =>
      simp only [hm]
      by_cases hu : (c.objs m).markState = MarkColor.Unmarked
      · rw [if_pos hu]
        show (pushChildren { c with grayObjs := m :: c.grayObjs } t).grayObjs = _
        rw [ih { c with grayObjs := m :: c.grayObjs }]
        simp [eligibleOf, hm, hu]
      · rw [if_neg hu]
        show (pushChildren c t).grayObjs = _
        rw [ih c]
        simp [eligibleOf, hm, hu]

theorem childStep_objs (c : Collector) (o : Nat) (rest : List Nat)
    (hg : c.grayObjs = o :: rest) :
    (childStep c).objs = Function.update c.objs o { c.objs o with markState := MarkColor.Alive } ∧
    (childStep c).ptrs = c.ptrs ∧
    (childStep c).grayObjs =
      (eligibleOf
        { c with grayObjs := rest,
                 objs := Function.update c.objs o { c.objs o with markState := MarkColor.Alive } }
        ((c.objs o).subPtrs)).reverse ++ rest := by
  unfold childStep
  rw [hg]
  dsimp only
  refine ⟨?_, ?_, ?_⟩
  · rw [(pushChildren_frame _ _).2.1]
  · rw [(pushChildren_frame _ _).1]
  · rw [pushChildren_grayObjs]
    dsimp only
    rw [Function.update_same]

/-- Claim C7: in a ChildMarking work unit the popped gray object's mark is set
to Alive before its ClassInfo's sub-pointer offsets are iterated; a sub-handle
whose meta is null contributes nothing — it is skipped without being
dereferenced, so the step cannot fault on it — and exactly the sub-handles
with non-null meta whose mark is Unmarked push their meta onto grayObjs, in
enumeration order atop the remaining work list; no other object's meta is
touched and no handle changes. -/
theorem claim_C7 (c : Collector) (o : Nat) (rest : List Nat)
    (hg : c.grayObjs = o :: rest) :
    ((childStep c).objs o).markState = MarkColor.Alive ∧
    (childStep c).grayObjs =
      (eligibleOf
        { c with grayObjs := rest,
                 objs := Function.update c.objs o { c.objs o with markState := MarkColor.Alive } }
        ((c.objs o).subPtrs)).reverse ++ rest ∧
    (childStep c).ptrs = c.ptrs ∧
    (∀ m, m ≠ o → (childStep c).objs m = c.objs m) := by
  obtain ⟨ho, hp, hgray⟩ := childStep_objs c o rest hg
  refine ⟨?_, hgray, hp, ?_⟩
  · rw [ho, Function.update_same]
  · intro m hmo
    rw [ho, Function.update_noteq hmo]

/-- Claim C7, witness: one ChildMarking step on the chain scenario after root
marking has grayed A: A is popped and turned Alive, and B — reachable through
A's only sub-handle and Unmarked — is pushed. -/
theorem claim_C7_witness :
    (collect chainInit 2).grayObjs = 0 :: [] ∧
    ((childStep (collect chainInit 2)).objs 0).markState = MarkColor.Alive := by
  exact ⟨by decide, (claim_C7 (collect chainInit 2) 0 [] (by decide)).1⟩

theorem mem_eligibleOf (c : Collector) (hs : List Nat) (m2 : Nat) :
    m2 ∈ eligibleOf c hs ↔
      ∃ h ∈ hs, (c.ptrs h).meta = some m2 ∧
        (c.objs m2).markState = MarkColor.Unmarked := by
  unfold eligibleOf
  rw [List.mem_filterMap]
  constructor
  · rintro ⟨h, hh, hf⟩
    cases hm : (c.ptrs h).meta with
    | none =>
      rw [hm] at hf
      exact absurd hf (by simp)
    | some m =>
      rw [hm] at hf
      dsimp only at hf
      by_cases hu : (c.objs m).markState = MarkColor.Unmarked
      · rw [if_pos hu] at hf
        cases hf
        exact ⟨h, hh, hm, hu⟩
      · rw [if_neg hu] at hf
        exact absurd hf (by simp)
  · rintro ⟨h, hh, hm, hu⟩
    refine ⟨h, hh, ?_⟩
    rw [hm]
    dsimp only
    rw [if_pos hu]

/-- Claim C1, counterexample: running the collector on the chain scenario
(root handle to A, sub-handle in A to B, everything Unmarked) for two steps
finishes root marking, and one further ChildMarking work unit pops A, marks it
Alive and pushes B without recoloring B Gray — so in the resulting
ChildMarking state an Alive object references an Unmarked object and grayObjs
holds an object that is not Gray: the strict tri-color invariant fails. -/
theorem claim_C1_cex :
    (collect (collect chainInit 2) 1).state = GcState.ChildMarking ∧
    ¬ strictTriColor (collect (collect chainInit 2) 1) := by
  exact ⟨by decide, by decide⟩

/-- Claim C1 (amended): during ChildMarking the collector maintains the weak
tri-color invariant — every object referenced through a registered
sub-pointer of an Alive object is Alive or in the grayObjs work list, and
every Gray object is in grayObjs — but grayObjs may also hold Unmarked
objects, because a ChildMarking work unit pushes Unmarked children without
recoloring them Gray.  Every ChildMarking work unit preserves this weak
invariant. -/
theorem claim_C1 (c : Collector) (hst : c.state = GcState.ChildMarking)
    (hinv : weakTriColor c) : weakTriColor (childStep c) := by
  cases hg : c.grayObjs with
  | nil =>
    have heq : childStep c = c := by
      unfold childStep
      rw [hg]
    rw [heq]
    exact hinv
  | cons o rest =>
    obtain ⟨ho, hp, hgray⟩ := childStep_objs c o rest hg
    obtain ⟨hAlive, hGray⟩ := hinv
    have hchildren : ∀ m, childrenOf (childStep c) m = childrenOf c m := by
      intro m
      unfold childrenOf
      rw [hp, ho]
      by_cases hmo : m = o
      · subst hmo
        rw [Function.update_same]
      · rw [Function.update_noteq hmo]
    have hmark : ∀ m, ((childStep c).objs m).markState =
        if m = o then MarkColor.Alive else (c.objs m).markState := by
      intro m
      rw [ho]
      by_cases hmo : m = o
      · subst hmo
        rw [Function.update_same, if_pos rfl]
      · rw [Function.update_noteq hmo, if_neg hmo]
    constructor
    · intro m hm m2 hm2
      rw [hchildren m] at hm2
      rw [hgray]
      by_cases hm2o : m2 = o
      · left
        rw [hmark m2, if_pos hm2o]
      · rw [hmark m2, if_neg hm2o]
        by_cases hmo : m = o
        · cases hcol : (c.objs m2).markState with
          | Alive =>
            left
            rfl
          | Gray =>
            right
            have hmem := hGray m2 hcol
            rw [hg] at hmem
            rcases List.mem_cons.mp hmem with heq | hrest
            · exact absurd heq hm2o
            · exact List.mem_append_right _ hrest
          | Unmarked =>
            right
            apply List.mem_append_left
            rw [List.mem_reverse]
            rw [mem_eligibleOf]
            unfold childrenOf at hm2
            obtain ⟨h, hh, hhm⟩ := List.mem_filterMap.mp hm2
            rw [hmo] at hh
            refine ⟨h, hh, hhm, ?_⟩
            dsimp only
            rw [Function.update_noteq hm2o]
            exact hcol
        · rw [hmark m, if_neg hmo] at hm
          rcases hAlive m hm m2 hm2 with hal | hmem
          · left
            exact hal
          · rw [hg] at hmem
            rcases List.mem_cons.mp hmem with heq | hrest
            · exact absurd heq hm2o
            · right
              exact List.mem_append_right _ hrest
    · intro m hm
      rw [hgray]
      by_cases hmo : m = o
      · rw [hmark m, if_pos hmo] at hm
        exact MarkColor.noConfusion hm
      · rw [hmark m, if_neg hmo] at hm
        have hmem := hGray m hm
        rw [hg] at hmem
        rcases List.mem_cons.mp hmem with heq | hrest
        · exact absurd heq hmo
        · exact List.mem_append_right _ hrest

/-- Claim C1, witness: the small ChildMarking state satisfies the weak
invariant and one work unit preserves it. -/
theorem claim_C1_witness :
    childWitness.state = GcState.ChildMarking ∧ weakTriColor (childStep childWitness) := by
  have hw : weakTriColor childWitness := by
    constructor
    · intro m hm m2 hm2
      exact MarkColor.noConfusion hm
    · intro m hm
      exact MarkColor.noConfusion hm
  exact ⟨rfl, claim_C1 childWitness rfl hw⟩

theorem metaLess_irrefl_of_pos (a : ObjMeta) (ha : 0 < a.size) : ¬ metaLess a a := by
  unfold metaLess
  omega

theorem metaLess_asymm_of_pos (a b : ObjMeta) (ha : 0 < a.size)
    (hab : metaLess a b) : ¬ metaLess b a := by
  unfold metaLess at *
  omega

/-- Claim C6: during Sweeping, when the write barrier fires on a handle whose
meta m is Unmarked, the code compares m against the meta under the sweep
cursor in the range order; with the meta set sorted (Pairwise range order,
the std::set invariant) and payloads non-empty, that comparison is exactly a
position comparison, so if m sits at or after the cursor (not yet visited)
its mark is set to Alive and nothing else changes, while if m sits before the
cursor (already visited) the collector is left entirely unchanged. -/
theorem claim_C6 (c : Collector) (hId : Nat) (m : Nat) (j : Nat)
    (hj : j < c.metaSet.length)
    (hst : c.state = GcState.Sweeping)
    (hcur : c.nextSweeping < c.metaSet.length)
    (hsort : c.metaSet.Pairwise (fun a b => metaLess (c.objs a) (c.objs b)))
    (hpos : ∀ x ∈ c.metaSet, 0 < (c.objs x).size)
    (hmeta : (c.ptrs hId).meta = some m)
    (hjm : c.metaSet.get ⟨j, hj⟩ = m)
    (hunm : (c.objs m).markState = MarkColor.Unmarked) :
    (c.nextSweeping ≤ j →
      onPointeeChanged c hId =
        { c with objs := (Function.update c.objs m
            { c.objs m with markState := MarkColor.Alive }) }) ∧
    (j < c.nextSweeping → onPointeeChanged c hId = c) := by
  have hjm2 : c.metaSet[j] = m := by simpa using hjm
  have hpg := List.pairwise_iff_getElem.mp hsort
  have hcmp : metaLess (c.objs m) (c.objs (c.metaSet[c.nextSweeping])) ↔
      j < c.nextSweeping := by
    constructor
    · intro hless
      by_contra hge
      push_neg at hge
      rcases Nat.eq_or_lt_of_le hge with heq | hlt
      · subst heq
        rw [hjm2] at hless
        have hmem : m ∈ c.metaSet := hjm2 ▸ List.getElem_mem hj
        exact metaLess_irrefl_of_pos _ (hpos _ hmem) hless
      · have hlt2 := hpg c.nextSweeping j hcur hj hlt
        rw [hjm2] at hlt2
        have hmem : c.metaSet[c.nextSweeping] ∈ c.metaSet := List.getElem_mem hcur
        exact metaLess_asymm_of_pos _ _ (hpos _ hmem) hlt2 hless
    · intro hlt
      have hlt2 := hpg j c.nextSweeping hj hcur hlt
      rw [hjm2] at hlt2
      exact hlt2
  simp only [onPointeeChanged]
  rw [hmeta, hst]
  dsimp only
  rw [if_pos hunm, List.getElem?_eq_getElem hcur]
  dsimp only
  constructor
  · intro hle
    rw [if_neg]
    rw [hcmp]
    omega
  · intro hlt
    rw [if_pos]
    rw [hcmp]
    exact hlt

/-- Claim C6, witness: in the Sweeping-state dropped scenario the root
handle's meta A sits at position 1, at or after the cursor 0, so the barrier
marks it Alive. -/
theorem claim_C6_witness :
    sweepWitness.nextSweeping ≤ 1 ∧
    onPointeeChanged sweepWitness 0 =
      { sweepWitness with objs := (Function.update sweepWitness.objs 0
          { sweepWitness.objs 0 with markState := MarkColor.Alive }) } := by
  have h := claim_C6 sweepWitness 0 0 1 (by decide) rfl (by decide) (by decide)
    (by decide) rfl rfl rfl
  exact ⟨by decide, h.1 (by decide)⟩

theorem clearSubRoots_frame (hs : List Nat) (c : Collector) :
    (clearSubRoots c hs).objs = c.objs ∧ (clearSubRoots c hs).pointers = c.pointers ∧
    (clearSubRoots c hs).grayObjs = c.grayObjs ∧ (clearSubRoots c hs).metaSet = c.metaSet ∧
    (clearSubRoots c hs).nextRootMarking = c.nextRootMarking ∧
    (clearSubRoots c hs).nextSweeping = c.nextSweeping ∧
    (clearSubRoots c hs).state = c.state ∧ (clearSubRoots c hs).dtors = c.dtors := by
  induction hs generalizing c with
  | nil => exact ⟨rfl, rfl, rfl, rfl, rfl, rfl, rfl, rfl⟩
  | cons h t ih =>
    simp only [clearSubRoots, List.foldl_cons]
    exact ih { c with ptrs := Function.update c.ptrs h { c.ptrs h with isRoot := false } }

theorem rootMarkingStep_frame (c : Collector) :
    (rootMarkingStep c).pointers = c.pointers ∧ (rootMarkingStep c).metaSet = c.metaSet ∧
    (rootMarkingStep c).nextSweeping = c.nextSweeping ∧
    (rootMarkingStep c).state = c.state ∧ (rootMarkingStep c).dtors = c.dtors := by
  unfold rootMarkingStep
  cases c.pointers[c.nextRootMarking]? with
  | none => exact ⟨rfl, rfl, rfl, rfl, rfl⟩
  | some hId =>
    dsimp only
    cases (c.ptrs hId).meta with
    | none => exact ⟨rfl, rfl, rfl, rfl, rfl⟩
    | some m =>
      dsimp only
      have hc := clearSubRoots_frame (c.objs m).subPtrs c
      have ht := tryMarkRoot_frame (clearSubRoots c (c.objs m).subPtrs) hId
      refine ⟨?_, ?_, ?_, ?_, ?_⟩
      · rw [ht.2.1, hc.2.1]
      · rw [ht.2.2.1, hc.2.2.2.1]
      · rw [ht.2.2.2.2.2.1, hc.2.2.2.2.2.1]
      · rw [ht.2.2.2.1, hc.2.2.2.2.2.2.1]
      · rw [ht.2.2.2.2.2.2, hc.2.2.2.2.2.2.2]

theorem rootMarkingLoopAux_frame (fuel : Nat) (c : Collector) (s : Int) :
    (rootMarkingLoopAux fuel c s).1.pointers = c.pointers ∧
    (rootMarkingLoopAux fuel c s).1.metaSet = c.metaSet ∧
    (rootMarkingLoopAux fuel c s).1.nextSweeping = c.nextSweeping ∧
    (rootMarkingLoopAux fuel c s).1.state = c.state ∧
    (rootMarkingLoopAux fuel c s).1.dtors = c.dtors := by
  induction fuel generalizing c s with
  | zero =>
    unfold rootMarkingLoopAux
    split
    · exact ⟨rfl, rfl, rfl, rfl, rfl⟩
    · exact ⟨rfl, rfl, rfl, rfl, rfl⟩
  | succ fuel ih =>
    unfold rootMarkingLoopAux
    split
    · split
      · have h1 := ih (rootMarkingStep c) (s - 1)
        have h2 := rootMarkingStep_frame c
        refine ⟨?_, ?_, ?_, ?_, ?_⟩
        · rw [h1.1, h2.1]
        · rw [h1.2.1, h2.2.1]
        · rw [h1.2.2.1, h2.2.2.1]
        · rw [h1.2.2.2.1, h2.2.2.2.1]
        · rw [h1.2.2.2.2, h2.2.2.2.2]
      · exact ⟨rfl, rfl, rfl, rfl, rfl⟩
    · exact ⟨rfl, rfl, rfl, rfl, rfl⟩

theorem childStep_frame (c : Collector) :
    (childStep c).ptrs = c.ptrs ∧ (childStep c).pointers = c.pointers ∧
    (childStep c).metaSet = c.metaSet ∧
    (childStep c).nextRootMarking = c.nextRootMarking ∧
    (childStep c).nextSweeping = c.nextSweeping ∧
    (childStep c).state = c.state ∧ (childStep c).dtors = c.dtors := by
  unfold childStep
  cases c.grayObjs with
  | nil => exact ⟨rfl, rfl, rfl, rfl, rfl, rfl, rfl⟩
  | cons o rest =>
    dsimp only
    have h := pushChildren_frame
      ((Function.update c.objs o { c.objs o with markState := MarkColor.Alive } o).subPtrs)
      ({ c with grayObjs := rest,
                objs := (Function.update c.objs o { c.objs o with markState := MarkColor.Alive }) })
    exact ⟨h.1, h.2.2.1, h.2.2.2.1, h.2.2.2.2.2.1, h.2.2.2.2.2.2.1, h.2.2.2.2.1,
      h.2.2.2.2.2.2.2⟩

theorem childMarkingLoopAux_frame (fuel : Nat) (c : Collector) (s : Int) :
    (childMarkingLoopAux fuel c s).1.ptrs = c.ptrs ∧
    (childMarkingLoopAux fuel c s).1.pointers = c.pointers ∧
    (childMarkingLoopAux fuel c s).1.metaSet = c.metaSet ∧
    (childMarkingLoopAux fuel c s).1.nextRootMarking = c.nextRootMarking ∧
    (childMarkingLoopAux fuel c s).1.nextSweeping = c.nextSweeping ∧
    (childMarkingLoopAux fuel c s).1.state = c.state ∧
    (childMarkingLoopAux fuel c s).1.dtors = c.dtors := by
  induction fuel generalizing c s with
  | zero =>
    unfold childMarkingLoopAux
    split
    · exact ⟨rfl, rfl, rfl, rfl, rfl, rfl, rfl⟩
    · exact ⟨rfl, rfl, rfl, rfl, rfl, rfl, rfl⟩
  | succ fuel ih =>
    cases hg : c.grayObjs with
    | nil =>
      unfold childMarkingLoopAux
      rw [hg]
      exact ⟨rfl, rfl, rfl, rfl, rfl, rfl, rfl⟩
    | cons o rest =>
      unfold childMarkingLoopAux
      rw [hg]
      dsimp only
      split
      · have h1 := ih (childStep c) (s - 1 - ((c.objs o).subPtrs.length : Int))
        have h2 := childStep_frame c
        refine ⟨?_, ?_, ?_, ?_, ?_, ?_, ?_⟩
        · rw [h1.1, h2.1]
        · rw [h1.2.1, h2.2.1]
        · rw [h1.2.2.1, h2.2.2.1]
        · rw [h1.2.2.2.1, h2.2.2.2.1]
        · rw [h1.2.2.2.2.1, h2.2.2.2.2.1]
        · rw [h1.2.2.2.2.2.1, h2.2.2.2.2.2.1]
        · rw [h1.2.2.2.2.2.2, h2.2.2.2.2.2.2]
      · exact ⟨rfl, rfl, rfl, rfl, rfl, rfl, rfl⟩

theorem sweepLoopAux_frame (fuel : Nat) (c : Collector) (s : Int) :
    (sweepLoopAux fuel c s).1.ptrs = c.ptrs ∧
    (sweepLoopAux fuel c s).1.pointers = c.pointers ∧
    (sweepLoopAux fuel c s).1.grayObjs = c.grayObjs ∧
    (sweepLoopAux fuel c s).1.state = c.state ∧
    (sweepLoopAux fuel c s).1.nextRootMarking = c.nextRootMarking := by
  induction fuel generalizing c s with
  | zero =>
    unfold sweepLoopAux
    split
    · exact ⟨rfl, rfl, rfl, rfl, rfl⟩
    · exact ⟨rfl, rfl, rfl, rfl, rfl⟩
  | succ fuel ih =>
    unfold sweepLoopAux
    split
    · exact ⟨rfl, rfl, rfl, rfl, rfl⟩
    · split
      · split
        · exact ih _ _
        · exact ih _ _
      · exact ⟨rfl, rfl, rfl, rfl, rfl⟩

theorem onPointeeChanged_state (c : Collector) (hId : Nat) :
    (onPointeeChanged c hId).state = c.state := by
  unfold onPointeeChanged
  dsimp only
  repeat' split
  any_goals rfl
  all_goals exact (tryMarkRoot_frame c hId).2.2.2.1

theorem onPointeeChanged_gray_sweeping (c : Collector) (hId : Nat)
    (hst : c.state = GcState.Sweeping) :
    (onPointeeChanged c hId).grayObjs = c.grayObjs := by
  unfold onPointeeChanged
  dsimp only
  rw [hst]
  dsimp only
  repeat' split
  all_goals rfl

theorem registerPtr_state_gray (c : Collector) (hId : Nat) (meta0 : Option Nat)
    (creating : Bool) (owner : Option Nat) :
    (registerPtr c hId meta0 creating owner).state = c.state ∧
    (registerPtr c hId meta0 creating owner).grayObjs = c.grayObjs := by
  unfold registerPtr
  dsimp only
  repeat' split
  all_goals exact ⟨rfl, rfl⟩

theorem unregisterPtr_state (c : Collector) (hId : Nat) :
    (unregisterPtr c hId).state = c.state := by
  unfold unregisterPtr
  dsimp only
  repeat' split
  any_goals rfl
  all_goals exact (tryMarkRoot_frame _ _).2.2.2.1

theorem unregisterPtr_gray_sweeping (c : Collector) (hId : Nat)
    (hst : c.state = GcState.Sweeping) :
    (unregisterPtr c hId).grayObjs = c.grayObjs := by
  unfold unregisterPtr
  dsimp only
  split
  · rfl
  · split
    · rfl
    · split
      · rfl
      · split
        · rename_i hrm
          rw [hst] at hrm
          exact absurd hrm (by decide)
        · rfl

theorem rootMarkingLoop_frame (c : Collector) (s : Int) :
    (rootMarkingLoop c s).1.pointers = c.pointers ∧
    (rootMarkingLoop c s).1.metaSet = c.metaSet ∧
    (rootMarkingLoop c s).1.nextSweeping = c.nextSweeping ∧
    (rootMarkingLoop c s).1.state = c.state ∧
    (rootMarkingLoop c s).1.dtors = c.dtors :=
  rootMarkingLoopAux_frame s.toNat c s

theorem childMarkingLoop_frame (c : Collector) (s : Int) :
    (childMarkingLoop c s).1.ptrs = c.ptrs ∧
    (childMarkingLoop c s).1.pointers = c.pointers ∧
    (childMarkingLoop c s).1.metaSet = c.metaSet ∧
    (childMarkingLoop c s).1.nextRootMarking = c.nextRootMarking ∧
    (childMarkingLoop c s).1.nextSweeping = c.nextSweeping ∧
    (childMarkingLoop c s).1.state = c.state ∧
    (childMarkingLoop c s).1.dtors = c.dtors :=
  childMarkingLoopAux_frame s.toNat c s

theorem sweepLoop_frame (c : Collector) (s : Int) :
    (sweepLoop c s).1.ptrs = c.ptrs ∧
    (sweepLoop c s).1.pointers = c.pointers ∧
    (sweepLoop c s).1.grayObjs = c.grayObjs ∧
    (sweepLoop c s).1.state = c.state ∧
    (sweepLoop c s).1.nextRootMarking = c.nextRootMarking :=
  sweepLoopAux_frame s.toNat c s

theorem collectCoreSweep_sweepInv (c : Collector) (s : Int) (hinv : sweepInv c) :
    sweepInv (collectCoreSweep c s).1 := by
  unfold collectCoreSweep
  dsimp only
  split
  · intro hs
    dsimp only at hs
    exact absurd hs (by decide)
  · intro hs
    dsimp only at hs
    rw [(sweepLoop_frame c s).2.2.1]
    apply hinv
    rw [(sweepLoop_frame c s).2.2.2.1] at hs
    exact hs

theorem collectCoreChild_sweepInv (c : Collector) (s : Int)
    (hst : c.state = GcState.ChildMarking) :
    sweepInv (collectCoreChild c s).1 := by
  unfold collectCoreChild
  dsimp only
  split
  · rename_i hempty
    apply collectCoreSweep_sweepInv
    intro _
    exact hempty
  · intro hs
    dsimp only at hs
    rw [(childMarkingLoop_frame c s).2.2.2.2.2.1, hst] at hs
    exact absurd hs (by decide)

theorem collectCore_sweepInv (c : Collector) (s : Int) (hinv : sweepInv c) :
    sweepInv (collectCore c s).1 := by
  unfold collectCore
  cases hst : c.state with
  | RootMarking =>
    dsimp only
    split
    · apply collectCoreChild_sweepInv
      rfl
    · intro hs
      dsimp only at hs
      rw [(rootMarkingLoop_frame c s).2.2.2.1, hst] at hs
      exact absurd hs (by decide)
  | ChildMarking => exact collectCoreChild_sweepInv c s hst
  | Sweeping => exact collectCoreSweep_sweepInv c s hinv

theorem collectAux_sweepInv (fuel : Nat) (c : Collector) (s : Int) (hinv : sweepInv c) :
    sweepInv (collectAux fuel c s) := by
  induction fuel generalizing c s with
  | zero => exact hinv
  | succ fuel ih =>
    unfold collectAux
    dsimp only
    split
    · exact ih _ _ (collectCore_sweepInv c s hinv)
    · exact collectCore_sweepInv c s hinv

/-- Claim C10: whenever the collector is in the Sweeping state the gray work
list is empty.  The property is preserved by every reachable operation —
collect at any step budget (the ChildMarking-to-Sweeping transition fires
only with an empty gray list, and the sweeping loop never pushes), the write
barrier (its Sweeping branch only recolors the meta), handle registration
(which never touches grayObjs), and handle deregistration (whose re-marking
is guarded by the RootMarking state). -/
theorem claim_C10 (c : Collector) (hinv : sweepInv c) :
    (∀ s, sweepInv (collect c s)) ∧
    (∀ hId, sweepInv (onPointeeChanged c hId)) ∧
    (∀ hId meta0 creating owner, sweepInv (registerPtr c hId meta0 creating owner)) ∧
    (∀ hId, sweepInv (unregisterPtr c hId)) := by
  refine ⟨?_, ?_, ?_, ?_⟩
  · intro s
    exact collectAux_sweepInv _ c s hinv
  · intro hId hs
    rw [onPointeeChanged_state c hId] at hs
    rw [onPointeeChanged_gray_sweeping c hId hs]
    exact hinv hs
  · intro hId meta0 creating owner hs
    rw [(registerPtr_state_gray c hId meta0 creating owner).1] at hs
    rw [(registerPtr_state_gray c hId meta0 creating owner).2]
    exact hinv hs
  · intro hId hs
    rw [unregisterPtr_state c hId] at hs
    rw [unregisterPtr_gray_sweeping c hId hs]
    exact hinv hs

/-- Claim C10, witness: the chain scenario's initial state satisfies the
invariant, and so does its image under three collector steps and under the
write barrier. -/
theorem claim_C10_witness :
    sweepInv chainInit ∧ sweepInv (collect chainInit 3) ∧
    sweepInv (onPointeeChanged chainInit 0) := by
  have h := claim_C10 chainInit (by decide)
  exact ⟨by decide, h.1 3, h.2.1 0⟩

theorem sweepLoopAux_stop (fuel : Nat) (c : Collector) (s : Int)
    (h : c.metaSet.length ≤ c.nextSweeping) : sweepLoopAux fuel c s = (c, s) := by
  cases fuel with
  | zero =>
    unfold sweepLoopAux
    rw [if_neg (by omega)]
  | succ fuel =>
    unfold sweepLoopAux
    rw [List.getElem?_eq_none h]

theorem nodup_getElem_not_mem_drop (l : List Nat) (hnd : l.Nodup) (i : Nat)
    (hi : i < l.length) : l[i] ∉ l.drop (i + 1) := by
  intro hmem
  obtain ⟨k, hk, hkeq⟩ := List.mem_iff_getElem.mp hmem
  rw [List.getElem_drop] at hkeq
  have := (List.Nodup.getElem_inj_iff hnd).mp hkeq
  omega

theorem sweepLoopAux_run (n : Nat) :
    ∀ (fuel : Nat) (c : Collector) (s : Int),
      c.metaSet.length - c.nextSweeping = n →
      c.nextSweeping ≤ c.metaSet.length →
      c.metaSet.Nodup →
      n ≤ fuel → (n : Int) ≤ s →
      (sweepLoopAux fuel c s).1.metaSet =
          c.metaSet.take c.nextSweeping ++
          keptOf c.objs (c.metaSet.drop c.nextSweeping) ∧
      (sweepLoopAux fuel c s).1.nextSweeping = (sweepLoopAux fuel c s).1.metaSet.length ∧
      (sweepLoopAux fuel c s).1.dtors =
          c.dtors ++ sweptOf c.objs (c.metaSet.drop c.nextSweeping) ∧
      (∀ x, (sweepLoopAux fuel c s).1.objs x =
        if x ∈ keptOf c.objs (c.metaSet.drop c.nextSweeping)
        then { c.objs x with markState := MarkColor.Unmarked }
        else c.objs x) := by
  induction n with
  | zero =>
    intro fuel c s h0 hle hnd _ _
    have hc : c.nextSweeping = c.metaSet.length := by omega
    rw [sweepLoopAux_stop fuel c s (by omega)]
    dsimp only
    rw [hc, List.take_length, List.drop_length]
    refine ⟨by simp [keptOf], rfl, by simp [sweptOf], ?_⟩
    intro x
    simp [keptOf]
  | succ n ih =>
    intro fuel c s hn hle hnd hfuel hs
    have hcur : c.nextSweeping < c.metaSet.length := by omega
    cases fuel with
    | zero => omega
    | succ fuel =>
      have hs0 : 0 < s := by omega
      have hdrop : c.metaSet.drop c.nextSweeping =
          c.metaSet[c.nextSweeping] :: c.metaSet.drop (c.nextSweeping + 1) :=
        List.drop_eq_getElem_cons hcur
      unfold sweepLoopAux
      rw [List.getElem?_eq_getElem hcur]
      dsimp only
      rw [if_pos hs0]
      by_cases hu : (c.objs (c.metaSet[c.nextSweeping])).markState = MarkColor.Unmarked
      · rw [if_pos hu]
        have key := ih fuel
          { c with metaSet := c.metaSet.eraseIdx c.nextSweeping,
                   dtors := c.dtors ++ [c.metaSet[c.nextSweeping]] } (s - 1)
          (by dsimp only; rw [List.length_eraseIdx, if_pos hcur]; omega)
          (by dsimp only; rw [List.length_eraseIdx, if_pos hcur]; omega)
          (by dsimp only; exact hnd.sublist (List.eraseIdx_sublist _ _))
          (by omega) (by omega)
        dsimp only at key
        obtain ⟨k1, k2, k3, k4⟩ := key
        have hlentake : (c.metaSet.take c.nextSweeping).length = c.nextSweeping :=
          List.length_take_of_le (by omega)
        have hE : c.metaSet.eraseIdx c.nextSweeping =
            c.metaSet.take c.nextSweeping ++ c.metaSet.drop (c.nextSweeping + 1) :=
          List.eraseIdx_eq_take_drop_succ _ _
        have htakeE : (c.metaSet.eraseIdx c.nextSweeping).take c.nextSweeping =
            c.metaSet.take c.nextSweeping := by
          rw [hE]
          exact List.take_left' hlentake
        have hdropE : (c.metaSet.eraseIdx c.nextSweeping).drop c.nextSweeping =
            c.metaSet.drop (c.nextSweeping + 1) := by
          rw [hE]
          exact List.drop_left' hlentake
        have hb : decide ((c.objs (c.metaSet[c.nextSweeping])).markState =
            MarkColor.Unmarked) = true := decide_eq_true hu
        have hkept : keptOf c.objs (c.metaSet.drop c.nextSweeping) =
            keptOf c.objs (c.metaSet.drop (c.nextSweeping + 1)) := by
          rw [hdrop]
          unfold keptOf
          rw [List.filter_cons, hb]
          rfl
        have hswept : sweptOf c.objs (c.metaSet.drop c.nextSweeping) =
            c.metaSet[c.nextSweeping] :: sweptOf c.objs (c.metaSet.drop (c.nextSweeping + 1)) := by
          rw [hdrop]
          unfold sweptOf
          rw [List.filter_cons, hb]
          rfl
        rw [htakeE, hdropE] at k1
        rw [hdropE] at k3 k4
        refine ⟨?_, k2, ?_, ?_⟩
        · rw [k1, hkept]
        · rw [k3, hswept]
          simp
        · intro x
          rw [k4 x, hkept]
      · rw [if_neg hu]
        have key := ih fuel
          { c with objs := (Function.update c.objs (c.metaSet[c.nextSweeping])
                     { c.objs (c.metaSet[c.nextSweeping]) with markState := MarkColor.Unmarked }),
                   nextSweeping := c.nextSweeping + 1 } (s - 1)
          (by dsimp only; omega)
          (by dsimp only; omega)
          (by dsimp only; exact hnd)
          (by omega) (by omega)
        dsimp only at key
        obtain ⟨k1, k2, k3, k4⟩ := key
        have hnotm : ∀ y ∈ c.metaSet.drop (c.nextSweeping + 1),
            y ≠ c.metaSet[c.nextSweeping] := by
          intro y hy he
          exact nodup_getElem_not_mem_drop c.metaSet hnd c.nextSweeping hcur (he ▸ hy)
        have hobjseq : ∀ y ∈ c.metaSet.drop (c.nextSweeping + 1),
            (Function.update c.objs (c.metaSet[c.nextSweeping])
              { c.objs (c.metaSet[c.nextSweeping]) with markState := MarkColor.Unmarked }) y =
            c.objs y := by
          intro y hy
          exact Function.update_noteq (hnotm y hy) _ _
        have hkept2 : keptOf
            (Function.update c.objs (c.metaSet[c.nextSweeping])
              { c.objs (c.metaSet[c.nextSweeping]) with markState := MarkColor.Unmarked })
            (c.metaSet.drop (c.nextSweeping + 1)) =
            keptOf c.objs (c.metaSet.drop (c.nextSweeping + 1)) := by
          unfold keptOf
          apply List.filter_congr
          intro y hy
          rw [hobjseq y hy]
        have hswept2 : sweptOf
            (Function.update c.objs (c.metaSet[c.nextSweeping])
              { c.objs (c.metaSet[c.nextSweeping]) with markState := MarkColor.Unmarked })
            (c.metaSet.drop (c.nextSweeping + 1)) =
            sweptOf c.objs (c.metaSet.drop (c.nextSweeping + 1)) := by
          unfold sweptOf
          apply List.filter_congr
          intro y hy
          rw [hobjseq y hy]
        have hb : decide ((c.objs (c.metaSet[c.nextSweeping])).markState =
            MarkColor.Unmarked) = false := decide_eq_false hu
        have hkeptc : keptOf c.objs (c.metaSet.drop c.nextSweeping) =
            c.metaSet[c.nextSweeping] :: keptOf c.objs (c.metaSet.drop (c.nextSweeping + 1)) := by
          rw [hdrop]
          unfold keptOf
          rw [List.filter_cons, hb]
          rfl
        have hsweptc : sweptOf c.objs (c.metaSet.drop c.nextSweeping) =
            sweptOf c.objs (c.metaSet.drop (c.nextSweeping + 1)) := by
          rw [hdrop]
          unfold sweptOf
          rw [List.filter_cons, hb]
          rfl
        have htakes : c.metaSet.take (c.nextSweeping + 1) =
            c.metaSet.take c.nextSweeping ++ [c.metaSet[c.nextSweeping]] := by
          rw [List.take_succ, List.getElem?_eq_getElem hcur]
          rfl
        have hnotin : c.metaSet[c.nextSweeping] ∉
            keptOf c.objs (c.metaSet.drop (c.nextSweeping + 1)) := by
          intro hmem
          exact nodup_getElem_not_mem_drop c.metaSet hnd c.nextSweeping hcur
            (List.mem_of_mem_filter hmem)
        rw [hkept2] at k1 k4
        rw [hswept2] at k3
        refine ⟨?_, k2, ?_, ?_⟩
        · rw [k1, htakes, hkeptc, List.append_assoc]
          rfl
        · rw [k3, hsweptc]
        · intro x
          rw [k4 x]
          by_cases hxm : x = c.metaSet[c.nextSweeping]
          · subst hxm
            rw [if_neg hnotin, Function.update_same, hkeptc,
              if_pos (List.mem_cons_self _ _)]
          · rw [Function.update_noteq hxm, hkeptc]
            by_cases hxk : x ∈ keptOf c.objs (c.metaSet.drop (c.nextSweeping + 1))
            · rw [if_pos hxk, if_pos (List.mem_cons_of_mem _ hxk)]
            · rw [if_neg hxk, if_neg]
              intro hc2
              rcases List.mem_cons.mp hc2 with he | hmem2
              · exact hxm he
              · exact hxk hmem2

/-- Claim C5: a Sweeping phase entered with the cursor at the set's begin and
enough budget visits the metas in set (address) order; every Unmarked meta is
erased from the set and its destructor thunk runs — exactly once, by the count
equation — while every other meta is kept with its mark reset to Unmarked;
when the cursor reaches the end, the collector transitions back to
RootMarking. -/
theorem claim_C5 (c : Collector) (s : Int)
    (hst : c.state = GcState.Sweeping)
    (hcur : c.nextSweeping = 0) (hnd : c.metaSet.Nodup)
    (hs : (c.metaSet.length : Int) ≤ s) :
    (collectCoreSweep c s).1.metaSet = keptOf c.objs c.metaSet ∧
    (collectCoreSweep c s).1.dtors = c.dtors ++ sweptOf c.objs c.metaSet ∧
    (∀ m ∈ c.metaSet, (c.objs m).markState = MarkColor.Unmarked →
        ((collectCoreSweep c s).1.dtors).count m = c.dtors.count m + 1) ∧
    (∀ x ∈ (collectCoreSweep c s).1.metaSet,
        ((collectCoreSweep c s).1.objs x).markState = MarkColor.Unmarked) ∧
    (collectCoreSweep c s).1.state = GcState.RootMarking := by
  have hrun := sweepLoopAux_run (c.metaSet.length - c.nextSweeping) s.toNat c s rfl
    (by omega) hnd (by rw [hcur]; omega) (by rw [hcur]; push_cast; omega)
  obtain ⟨k1, k2, k3, k4⟩ := hrun
  rw [hcur] at k1 k3 k4
  simp only [List.take_zero, List.drop_zero, List.nil_append] at k1 k3 k4
  have hcount : ∀ m ∈ c.metaSet, (c.objs m).markState = MarkColor.Unmarked →
      (c.dtors ++ sweptOf c.objs c.metaSet).count m = c.dtors.count m + 1 := by
    intro m hm hmu
    rw [List.count_append]
    have hmem : m ∈ sweptOf c.objs c.metaSet := by
      unfold sweptOf
      rw [List.mem_filter]
      exact ⟨hm, decide_eq_true hmu⟩
    have hnds : (sweptOf c.objs c.metaSet).Nodup := by
      unfold sweptOf
      exact List.Nodup.filter _ hnd
    rw [List.count_eq_one_of_mem hnds hmem]
  unfold collectCoreSweep
  unfold sweepLoop
  dsimp only
  rw [if_pos (le_of_eq k2.symm)]
  dsimp only
  refine ⟨k1, k3, ?_, ?_, rfl⟩
  · intro m hm hmu
    rw [k3]
    exact hcount m hm hmu
  · intro x hx
    rw [k1] at hx
    rw [k4 x, if_pos hx]

theorem rootMarkingLoopAux_budget (fuel : Nat) :
    ∀ (c : Collector) (s : Int), (rootMarkingLoopAux fuel c s).2 ≤ s := by
  induction fuel with
  | zero =>
    intro c s
    unfold rootMarkingLoopAux
    split
    · omega
    · omega
  | succ fuel ih =>
    intro c s
    unfold rootMarkingLoopAux
    split
    · split
      · have := ih (rootMarkingStep c) (s - 1)
        omega
      · omega
    · omega

theorem childMarkingLoopAux_budget (fuel : Nat) :
    ∀ (c : Collector) (s : Int), (childMarkingLoopAux fuel c s).2 ≤ s := by
  induction fuel with
  | zero =>
    intro c s
    unfold childMarkingLoopAux
    split
    · omega
    · omega
  | succ fuel ih =>
    intro c s
    cases hg : c.grayObjs with
    | nil =>
      unfold childMarkingLoopAux
      rw [hg]
    | cons o rest =>
      unfold childMarkingLoopAux
      rw [hg]
      dsimp only
      split
      · have := ih (childStep c) (s - 1 - ((c.objs o).subPtrs.length : Int))
        have hnn : (0 : Int) ≤ ((c.objs o).subPtrs.length : Int) := Int.ofNat_nonneg _
        omega
      · omega

theorem sweepLoopAux_metaSet (fuel : Nat) :
    ∀ (c : Collector) (s : Int),
      c.metaSet.length ≤ (sweepLoopAux fuel c s).1.metaSet.length +
        (s.toNat - (sweepLoopAux fuel c s).2.toNat) ∧
      (sweepLoopAux fuel c s).2 ≤ s ∧
      (sweepLoopAux fuel c s).1.metaSet.Sublist c.metaSet := by
  induction fuel with
  | zero =>
    intro c s
    unfold sweepLoopAux
    split
    · dsimp only
      exact ⟨by omega, by omega, List.Sublist.refl _⟩
    · dsimp only
      exact ⟨by omega, by omega, List.Sublist.refl _⟩
  | succ fuel ih =>
    intro c s
    unfold sweepLoopAux
    cases heq : c.metaSet[c.nextSweeping]? with
    | none =>
      dsimp only
      exact ⟨by omega, by omega, List.Sublist.refl _⟩
    | some m =>
      have hcur : c.nextSweeping < c.metaSet.length := by
        by_contra hge
        rw [List.getElem?_eq_none (by omega)] at heq
        exact Option.noConfusion heq
      dsimp only
      split
      · rename_i hs0
        split
        · have key := ih { c with metaSet := c.metaSet.eraseIdx c.nextSweeping,
                                  dtors := c.dtors ++ [m] } (s - 1)
          dsimp only at key
          have hlenE : (c.metaSet.eraseIdx c.nextSweeping).length = c.metaSet.length - 1 := by
            rw [List.length_eraseIdx, if_pos hcur]
          refine ⟨?_, by omega, ?_⟩
          · have h1 := key.1
            have h2 := key.2.1
            rw [hlenE] at h1
            omega
          · exact key.2.2.trans (List.eraseIdx_sublist _ _)
        · have key := ih { c with
            objs := (Function.update c.objs m { c.objs m with markState := MarkColor.Unmarked }),
            nextSweeping := c.nextSweeping + 1 } (s - 1)
          dsimp only at key
          refine ⟨?_, by omega, key.2.2⟩
          have h1 := key.1
          have h2 := key.2.1
          omega
      · dsimp only
        exact ⟨by omega, by omega, List.Sublist.refl _⟩

theorem collectCoreSweep_metaSet (c : Collector) (s : Int) :
    c.metaSet.length ≤ (collectCoreSweep c s).1.metaSet.length +
      (s.toNat - (collectCoreSweep c s).2.1.toNat) ∧
    (collectCoreSweep c s).2.1 ≤ s ∧
    (collectCoreSweep c s).1.metaSet.Sublist c.metaSet := by
  have key := sweepLoopAux_metaSet s.toNat c s
  unfold collectCoreSweep
  unfold sweepLoop
  dsimp only
  split
  · dsimp only
    exact key
  · exact key

theorem collectCoreChild_metaSet (c : Collector) (s : Int) :
    c.metaSet.length ≤ (collectCoreChild c s).1.metaSet.length +
      (s.toNat - (collectCoreChild c s).2.1.toNat) ∧
    (collectCoreChild c s).2.1 ≤ s ∧
    (collectCoreChild c s).1.metaSet.Sublist c.metaSet := by
  have hm := (childMarkingLoopAux_frame s.toNat c s).2.2.1
  have hb := childMarkingLoopAux_budget s.toNat c s
  unfold collectCoreChild
  unfold childMarkingLoop
  dsimp only
  split
  · have key := collectCoreSweep_metaSet
      { (childMarkingLoopAux s.toNat c s).1 with state := GcState.Sweeping, nextSweeping := 0 }
      (childMarkingLoopAux s.toNat c s).2
    dsimp only at key
    have hlen : (childMarkingLoopAux s.toNat c s).1.metaSet.length = c.metaSet.length := by
      rw [hm]
    refine ⟨?_, ?_, key.2.2.trans (by rw [hm])⟩
    · have k1 := key.1
      have k2 := key.2.1
      omega
    · have k2 := key.2.1
      omega
  · rw [hm]
    exact ⟨by omega, hb, List.Sublist.refl _⟩

theorem collectCore_metaSet (c : Collector) (s : Int) :
    c.metaSet.length ≤ (collectCore c s).1.metaSet.length +
      (s.toNat - (collectCore c s).2.1.toNat) ∧
    (collectCore c s).2.1 ≤ s ∧
    (collectCore c s).1.metaSet.Sublist c.metaSet := by
  unfold collectCore
  cases c.state with
  | RootMarking =>
    dsimp only
    have hm := (rootMarkingLoopAux_frame s.toNat c s).2.1
    have hb := rootMarkingLoopAux_budget s.toNat c s
    split
    · have key := collectCoreChild_metaSet
        { (rootMarkingLoop c s).1 with state := GcState.ChildMarking, nextRootMarking := 0 }
        (rootMarkingLoop c s).2
      dsimp only at key
      have hm2 : (rootMarkingLoop c s).1.metaSet = c.metaSet := hm
      have hb2 : (rootMarkingLoop c s).2 ≤ s := hb
      have hlen : (rootMarkingLoop c s).1.metaSet.length = c.metaSet.length := by
        rw [hm2]
      refine ⟨?_, ?_, key.2.2.trans (by rw [hm2])⟩
      · have k1 := key.1
        have k2 := key.2.1
        omega
      · have k2 := key.2.1
        omega
    · have hm2 : (rootMarkingLoop c s).1.metaSet = c.metaSet := hm
      rw [hm2]
      exact ⟨by omega, hb, List.Sublist.refl _⟩
  | ChildMarking => exact collectCoreChild_metaSet c s
  | Sweeping => exact collectCoreSweep_metaSet c s

theorem collectAux_metaSet (fuel : Nat) :
    ∀ (c : Collector) (s : Int),
      c.metaSet.length ≤ (collectAux fuel c s).metaSet.length + s.toNat ∧
      (collectAux fuel c s).metaSet.Sublist c.metaSet := by
  induction fuel with
  | zero =>
    intro c s
    unfold collectAux
    exact ⟨by omega, List.Sublist.refl _⟩
  | succ fuel ih =>
    intro c s
    unfold collectAux
    dsimp only
    have key := collectCore_metaSet c s
    split
    · have hrec := ih (collectCore c s).1 (collectCore c s).2.1
      refine ⟨?_, hrec.2.trans key.2.2⟩
      have k1 := key.1
      have k2 := key.2.1
      have r1 := hrec.1
      omega
    · exact ⟨by omega, key.2.2⟩

theorem collect_metaSet_length (c : Collector) (s : Int) :
    c.metaSet.length ≤ (collect c s).metaSet.length + s.toNat ∧
    (collect c s).metaSet.Sublist c.metaSet := by
  unfold collect
  exact collectAux_metaSet (s.toNat + 2) c s

theorem garbage_survives (c : Collector) (hnd : c.metaSet.Nodup)
    (hg : 2 ≤ (garbage c).length) :
    ∃ m ∈ garbage c, m ∈ (collect c 1).metaSet := by
  by_contra hcon
  push_neg at hcon
  have h1 := (collect_metaSet_length c 1).1
  have h2 := (collect_metaSet_length c 1).2
  have hall : ∀ m ∈ (collect c 1).metaSet,
      (fun m => !((fun x => !(reachable c).contains x) m)) m = true := by
    intro m hm
    dsimp only
    cases hc : (reachable c).contains m with
    | true => rfl
    | false =>
      exfalso
      apply hcon m ?_ hm
      unfold garbage
      rw [List.mem_filter]
      exact ⟨h2.subset hm, by rw [hc]; rfl⟩
  have heqf : ((collect c 1).metaSet.filter
      (fun m => !((fun x => !(reachable c).contains x) m))) = (collect c 1).metaSet :=
    List.filter_eq_self.mpr hall
  have hsub2 : ((collect c 1).metaSet.filter
      (fun m => !((fun x => !(reachable c).contains x) m))).Sublist
      (c.metaSet.filter (fun m => !((fun x => !(reachable c).contains x) m))) :=
    h2.filter _
  rw [heqf] at hsub2
  have hlen2 := hsub2.length_le
  have hsplit := List.length_eq_length_filter_add
    (l := c.metaSet) (fun x => !(reachable c).contains x)
  have hglen : (garbage c).length =
      (c.metaSet.filter (fun x => !(reachable c).contains x)).length := rfl
  have hlen3 : (collect c 1).metaSet.length ≤
      (c.metaSet.filter (fun x => ! (! ((reachable c).contains x)))).length := hlen2
  have htn : ((1 : Int)).toNat = 1 := rfl
  rw [htn] at h1
  omega

theorem rootMarkingLoopAux_stop (fuel : Nat) (c : Collector) (s : Int)
    (h : c.pointers.length ≤ c.nextRootMarking) :
    rootMarkingLoopAux fuel c s = (c, s) := by
  cases fuel with
  | zero =>
    unfold rootMarkingLoopAux
    rw [if_neg (by omega)]
  | succ fuel =>
    unfold rootMarkingLoopAux
    rw [if_neg (by omega)]

theorem childMarkingLoopAux_stop (fuel : Nat) (c : Collector) (s : Int)
    (h : c.grayObjs = []) :
    childMarkingLoopAux fuel c s = (c, s) := by
  cases fuel with
  | zero =>
    unfold childMarkingLoopAux
    rw [if_pos h]
  | succ fuel =>
    unfold childMarkingLoopAux
    rw [h]

theorem sweepLoopAux_all_unmarked :
    ∀ (l : List Nat) (fuel : Nat) (c : Collector) (s : Int),
      c.metaSet = l → c.nextSweeping = 0 →
      (∀ m ∈ l, (c.objs m).markState = MarkColor.Unmarked) →
      l.length ≤ fuel → (l.length : Int) ≤ s →
      (sweepLoopAux fuel c s).1 = { c with metaSet := [], dtors := c.dtors ++ l } ∧
      (sweepLoopAux fuel c s).2 = s - l.length := by
  intro l
  induction l with
  | nil =>
    intro fuel c s hml hcur hmk hf hs
    rw [sweepLoopAux_stop fuel c s (by rw [hml]; simp)]
    refine ⟨?_, ?_⟩
    · show c = _
      rw [List.append_nil, ← hml]
    · show s = _
      rw [List.length_nil]
      push_cast
      omega
  | cons m tl ih =>
    intro fuel c s hml hcur hmk hf hs
    have hlen2 : tl.length + 1 ≤ fuel := by
      rw [List.length_cons] at hf
      exact hf
    cases fuel with
    | zero => omega
    | succ fuel =>
      have hs1 : (tl.length : Int) + 1 ≤ s := by
        rw [List.length_cons] at hs
        push_cast at hs
        omega
      have hget : c.metaSet[c.nextSweeping]? = some m := by
        rw [hcur, hml]
        exact List.getElem?_cons_zero
      unfold sweepLoopAux
      rw [hget]
      dsimp only
      rw [if_pos (by omega : (0 : Int) < s)]
      rw [if_pos (hmk m (List.mem_cons_self _ _))]
      have herase : c.metaSet.eraseIdx c.nextSweeping = tl := by
        rw [hcur, hml]
        rfl
      have hstep := ih fuel
        { c with metaSet := c.metaSet.eraseIdx c.nextSweeping,
                 dtors := c.dtors ++ [m] } (s - 1)
        (by dsimp only; exact herase)
        (by dsimp only; exact hcur)
        (by intro x hx; exact hmk x (List.mem_cons_of_mem _ hx))
        (by omega)
        (by omega)
      refine ⟨?_, ?_⟩
      · rw [hstep.1]
        dsimp only
        rw [List.append_assoc]
        rfl
      · rw [hstep.2]
        rw [List.length_cons]
        push_cast
        omega

theorem collect_classR_all (c : Collector) (s : Int)
    (hp : c.pointers = []) (hg : c.grayObjs = [])
    (hst : c.state = GcState.RootMarking)
    (hnr : c.nextRootMarking = 0) (hns : c.nextSweeping = 0)
    (hmk : ∀ m ∈ c.metaSet, (c.objs m).markState = MarkColor.Unmarked)
    (hs : (c.metaSet.length : Int) ≤ s) :
    collect c s = { c with metaSet := [], dtors := c.dtors ++ c.metaSet } := by
  obtain ⟨cPtrs, cObjs, cPointers, cGray, cMeta, cNR, cNS, cState, cDtors⟩ := c
  dsimp only at hp hg hst hnr hns hmk hs ⊢
  subst hp
  subst hg
  subst hst
  subst hnr
  subst hns
  have hsweep := sweepLoopAux_all_unmarked cMeta s.toNat
    (Collector.mk cPtrs cObjs [] [] cMeta 0 0 GcState.Sweeping cDtors) s
    rfl rfl hmk (by omega) hs
  have h3 : collectCoreSweep
      (Collector.mk cPtrs cObjs [] [] cMeta 0 0 GcState.Sweeping cDtors) s =
      (Collector.mk cPtrs cObjs [] [] [] 0 0 GcState.RootMarking (cDtors ++ cMeta),
        s - cMeta.length, false) := by
    unfold collectCoreSweep sweepLoop
    dsimp only
    rw [hsweep.1, hsweep.2]
    dsimp only
    rw [if_pos (by simp)]
    rfl
  have h2 : collectCoreChild
      (Collector.mk cPtrs cObjs [] [] cMeta 0 0 GcState.ChildMarking cDtors) s =
      (Collector.mk cPtrs cObjs [] [] [] 0 0 GcState.RootMarking (cDtors ++ cMeta),
        s - cMeta.length, false) := by
    unfold collectCoreChild
    dsimp only
    rw [show childMarkingLoop
        (Collector.mk cPtrs cObjs [] [] cMeta 0 0 GcState.ChildMarking cDtors) s =
        ((Collector.mk cPtrs cObjs [] [] cMeta 0 0 GcState.ChildMarking cDtors), s) from
      childMarkingLoopAux_stop s.toNat _ s rfl]
    dsimp only
    rw [if_pos rfl]
    exact h3
  have h1 : collectCore
      (Collector.mk cPtrs cObjs [] [] cMeta 0 0 GcState.RootMarking cDtors) s =
      (Collector.mk cPtrs cObjs [] [] [] 0 0 GcState.RootMarking (cDtors ++ cMeta),
        s - cMeta.length, false) := by
    unfold collectCore
    dsimp only
    rw [show rootMarkingLoop
        (Collector.mk cPtrs cObjs [] [] cMeta 0 0 GcState.RootMarking cDtors) s =
        ((Collector.mk cPtrs cObjs [] [] cMeta 0 0 GcState.RootMarking cDtors), s) from
      rootMarkingLoopAux_stop s.toNat _ s (by simp)]
    dsimp only
    rw [if_pos (by simp)]
    exact h2
  unfold collect collectAux
  dsimp only
  rw [h1]
  dsimp only
  rw [if_neg (by simp)]

theorem sweepAux_one_step (cPtrs : Nat → PtrBase) (cObjs : Nat → ObjMeta)
    (cNR : Nat) (cSt : GcState) (cDtors : List Nat) (m : Nat) (tl : List Nat)
    (hmkm : (cObjs m).markState = MarkColor.Unmarked) :
    sweepLoopAux 1 (Collector.mk cPtrs cObjs [] [] (m :: tl) cNR 0 cSt cDtors) 1 =
      (Collector.mk cPtrs cObjs [] [] tl cNR 0 cSt (cDtors ++ [m]),
        if tl.isEmpty then 0 else -1) := by
  unfold sweepLoopAux
  dsimp only
  rw [List.getElem?_cons_zero]
  dsimp only
  rw [if_pos (by omega : (0 : Int) < 1)]
  rw [if_pos hmkm]
  unfold sweepLoopAux
  dsimp only
  cases tl with
  | nil =>
    rw [if_neg (by simp)]
    rfl
  | cons m2 tl2 =>
    rw [if_pos (by simp)]
    rfl

theorem collectCoreSweep_one_step (cPtrs : Nat → PtrBase) (cObjs : Nat → ObjMeta)
    (cNR : Nat) (cDtors : List Nat) (m : Nat) (tl : List Nat)
    (hmkm : (cObjs m).markState = MarkColor.Unmarked) :
    collectCoreSweep (Collector.mk cPtrs cObjs [] [] (m :: tl) cNR 0 GcState.Sweeping cDtors) 1 =
      (Collector.mk cPtrs cObjs [] [] tl cNR 0
          (if tl.isEmpty then GcState.RootMarking else GcState.Sweeping) (cDtors ++ [m]),
        if tl.isEmpty then 0 else -1, false) := by
  unfold collectCoreSweep sweepLoop
  dsimp only
  rw [show ((1 : Int).toNat = 1) from rfl]
  rw [sweepAux_one_step cPtrs cObjs cNR GcState.Sweeping cDtors m tl hmkm]
  dsimp only
  cases tl with
  | nil =>
    rw [if_pos (by simp)]
    rfl
  | cons m2 tl2 =>
    rw [if_neg (by simp)]
    rfl

theorem collect_classS_one (c : Collector) (m : Nat) (tl : List Nat)
    (hml : c.metaSet = m :: tl)
    (hp : c.pointers = []) (hg : c.grayObjs = [])
    (hst : c.state = GcState.Sweeping)
    (hns : c.nextSweeping = 0)
    (hmkm : (c.objs m).markState = MarkColor.Unmarked) :
    collect c 1 = { c with
      metaSet := tl,
      dtors := c.dtors ++ [m],
      state := if tl.isEmpty then GcState.RootMarking else GcState.Sweeping } := by
  obtain ⟨cPtrs, cObjs, cPointers, cGray, cMeta, cNR, cNS, cState, cDtors⟩ := c
  dsimp only at hml hp hg hst hns hmkm ⊢
  subst hml
  subst hp
  subst hg
  subst hst
  subst hns
  unfold collect collectAux
  dsimp only
  unfold collectCore
  dsimp only
  rw [collectCoreSweep_one_step cPtrs cObjs cNR cDtors m tl hmkm]
  dsimp only
  rw [if_neg (by simp)]

theorem collect_classR_one (c : Collector) (m : Nat) (tl : List Nat)
    (hml : c.metaSet = m :: tl)
    (hp : c.pointers = []) (hg : c.grayObjs = [])
    (hst : c.state = GcState.RootMarking)
    (hnr : c.nextRootMarking = 0) (hns : c.nextSweeping = 0)
    (hmkm : (c.objs m).markState = MarkColor.Unmarked) :
    collect c 1 = { c with
      metaSet := tl,
      dtors := c.dtors ++ [m],
      state := if tl.isEmpty then GcState.RootMarking else GcState.Sweeping } := by
  obtain ⟨cPtrs, cObjs, cPointers, cGray, cMeta, cNR, cNS, cState, cDtors⟩ := c
  dsimp only at hml hp hg hst hnr hns hmkm ⊢
  subst hml
  subst hp
  subst hg
  subst hst
  subst hnr
  subst hns
  have h2 : collectCoreChild
      (Collector.mk cPtrs cObjs [] [] (m :: tl) 0 0 GcState.ChildMarking cDtors) 1 =
      (Collector.mk cPtrs cObjs [] [] tl 0 0
          (if tl.isEmpty then GcState.RootMarking else GcState.Sweeping) (cDtors ++ [m]),
        if tl.isEmpty then 0 else -1, false) := by
    unfold collectCoreChild
    dsimp only
    rw [show childMarkingLoop
        (Collector.mk cPtrs cObjs [] [] (m :: tl) 0 0 GcState.ChildMarking cDtors) 1 =
        ((Collector.mk cPtrs cObjs [] [] (m :: tl) 0 0 GcState.ChildMarking cDtors), 1) from
      childMarkingLoopAux_stop _ _ _ rfl]
    dsimp only
    rw [if_pos rfl]
    exact collectCoreSweep_one_step cPtrs cObjs 0 cDtors m tl hmkm
  have h1 : collectCore
      (Collector.mk cPtrs cObjs [] [] (m :: tl) 0 0 GcState.RootMarking cDtors) 1 =
      (Collector.mk cPtrs cObjs [] [] tl 0 0
          (if tl.isEmpty then GcState.RootMarking else GcState.Sweeping) (cDtors ++ [m]),
        if tl.isEmpty then 0 else -1, false) := by
    unfold collectCore
    dsimp only
    rw [show rootMarkingLoop
        (Collector.mk cPtrs cObjs [] [] (m :: tl) 0 0 GcState.RootMarking cDtors) 1 =
        ((Collector.mk cPtrs cObjs [] [] (m :: tl) 0 0 GcState.RootMarking cDtors), 1) from
      rootMarkingLoopAux_stop _ _ _ (by simp)]
    dsimp only
    exact h2
  unfold collect collectAux
  dsimp only
  rw [h1]
  dsimp only
  rw [if_neg (by simp)]

theorem collect_one_iterS (l : List Nat) : ∀ (c : Collector), l ≠ [] →
    c.metaSet = l → c.pointers = [] → c.grayObjs = [] →
    c.state = GcState.Sweeping → c.nextSweeping = 0 →
    (∀ m ∈ l, (c.objs m).markState = MarkColor.Unmarked) →
    Nat.iterate (fun x => collect x 1) l.length c =
      { c with metaSet := [], dtors := c.dtors ++ l,
               state := GcState.RootMarking } := by
  induction l with
  | nil => exact fun c hne => absurd rfl hne
  | cons m tl ih =>
    intro c _ hml hp hg hst hns hmk
    have hone := collect_classS_one c m tl hml hp hg hst hns (hmk m (by simp))
    cases tl with
    | nil =>
      rw [List.length_cons, List.length_nil, Function.iterate_one]
      rw [hone]
      simp
    | cons m2 tl2 =>
      have key := ih
        ({ c with
            metaSet := m2 :: tl2
            dtors := c.dtors ++ [m]
            state := GcState.Sweeping })
        (by simp) rfl hp hg rfl hns
        (fun x hx => hmk x (List.mem_cons_of_mem m hx))
      rw [List.length_cons, Function.iterate_succ_apply]
      rw [hone]
      simp only [List.isEmpty_cons, Bool.false_eq_true, if_false]
      rw [key]
      simp

theorem collect_one_iterR (c : Collector)
    (hp : c.pointers = []) (hg : c.grayObjs = [])
    (hst : c.state = GcState.RootMarking)
    (hnr : c.nextRootMarking = 0) (hns : c.nextSweeping = 0)
    (hmk : ∀ m ∈ c.metaSet, (c.objs m).markState = MarkColor.Unmarked) :
    Nat.iterate (fun x => collect x 1) c.metaSet.length c =
      { c with metaSet := [], dtors := c.dtors ++ c.metaSet } := by
  cases hml : c.metaSet with
  | nil =>
    rw [List.length_nil, Function.iterate_zero_apply]
    rw [List.append_nil, ← hml]
  | cons m tl =>
    have hone := collect_classR_one c m tl hml hp hg hst hnr hns
      (hmk m (by rw [hml]; simp))
    rw [List.length_cons, Function.iterate_succ_apply]
    rw [hone]
    cases tl with
    | nil =>
      rw [List.length_nil, Function.iterate_zero_apply]
      simp [hst]
    | cons m2 tl2 =>
      have key := collect_one_iterS (m2 :: tl2)
        ({ c with
            metaSet := m2 :: tl2
            dtors := c.dtors ++ [m]
            state := GcState.Sweeping })
        (by simp) rfl hp hg rfl hns
        (fun x hx => hmk x (by rw [hml]; exact List.mem_cons_of_mem m hx))
      simp only [List.isEmpty_cons, Bool.false_eq_true, if_false]
      rw [key]
      simp [hst, List.append_assoc]

/-- Claim C2, counterexample: a single gc_collect(1) call can collect all the
garbage even though more than one allocation exists.  From dropInit, collect 2
stops mid-cycle in Sweeping with two allocations live in the set and the
unreferenced object B still garbage; the next collect(1) erases B and runs its
destructor, leaving no garbage at all. -/
theorem claim_C2_cex :
    2 ≤ (collect dropInit 2).metaSet.length ∧
    garbage (collect dropInit 2) ≠ [] ∧
    garbage (collect (collect dropInit 2) 1) = [] ∧
    (collect (collect dropInit 2) 1).dtors = [1] := by
  decide

/-- Claim C2 (amended): incrementality, in two independent parts.  (i) From
any configuration whatever with a duplicate-free meta set and at least two
garbage objects, one collect(1) call leaves some garbage object still in the
set.  (ii) Restricted equivalence: from any quiescent between-cycles
configuration (registry drained into a cycle start: no pending pointers,
empty gray list, RootMarking with both cursors at 0, all marks Unmarked),
iterating collect(1) metaSet.length times reaches exactly the state of a
single collect call with any budget s ≥ metaSet.length.  Each part assumes
only its own domain. -/
theorem claim_C2 (c : Collector) (s : Int) :
    (c.metaSet.Nodup → 2 ≤ (garbage c).length →
      ∃ m ∈ garbage c, m ∈ (collect c 1).metaSet) ∧
    (c.pointers = [] → c.grayObjs = [] → c.state = GcState.RootMarking →
      c.nextRootMarking = 0 → c.nextSweeping = 0 →
      (∀ m ∈ c.metaSet, (c.objs m).markState = MarkColor.Unmarked) →
      (c.metaSet.length : Int) ≤ s →
      Nat.iterate (fun x => collect x 1) c.metaSet.length c = collect c s) := by
  refine ⟨fun hnd hgar => garbage_survives c hnd hgar,
    fun hp hg hst hnr hns hmk hs => ?_⟩
  rw [collect_one_iterR c hp hg hst hnr hns hmk,
    collect_classR_all c s hp hg hst hnr hns hmk hs]

theorem claim_C2_witness :
    (dropTwoInit.metaSet.Nodup ∧ 2 ≤ (garbage dropTwoInit).length ∧
      dropTwoInit.pointers ≠ [] ∧
      (∃ m ∈ garbage dropTwoInit, m ∈ (collect dropTwoInit 1).metaSet)) ∧
    ((garbage oneObjInit).length < 2 ∧
      Nat.iterate (fun x => collect x 1) oneObjInit.metaSet.length oneObjInit =
        collect oneObjInit 3) :=
  ⟨⟨by decide, by decide, by decide,
     (claim_C2 dropTwoInit 3).1 (by decide) (by decide)⟩,
   ⟨by decide,
     (claim_C2 oneObjInit 3).2 rfl rfl rfl rfl rfl (by decide) (by decide)⟩⟩

theorem claim_C5_witness :
    sweepWitness.metaSet.Nodup ∧
    ((collectCoreSweep sweepWitness 2).1.metaSet =
        keptOf sweepWitness.objs sweepWitness.metaSet ∧
     (collectCoreSweep sweepWitness 2).1.dtors =
        sweepWitness.dtors ++ sweptOf sweepWitness.objs sweepWitness.metaSet ∧
     (∀ m ∈ sweepWitness.metaSet,
        (sweepWitness.objs m).markState = MarkColor.Unmarked →
        ((collectCoreSweep sweepWitness 2).1.dtors).count m =
          sweepWitness.dtors.count m + 1) ∧
     (∀ x ∈ (collectCoreSweep sweepWitness 2).1.metaSet,
        ((collectCoreSweep sweepWitness 2).1.objs x).markState =
          MarkColor.Unmarked) ∧
     (collectCoreSweep sweepWitness 2).1.state = GcState.RootMarking) :=
  ⟨by decide, claim_C5 sweepWitness 2 rfl rfl (by decide) (by decide)⟩

theorem sweepLoopAux_progress (fuel : Nat) (c : Collector) (s : Int)
    (hcur : c.nextSweeping < c.metaSet.length) :
    (sweepLoopAux fuel c s).2 ≤ s - 1 := by
  cases fuel with
  | zero =>
    unfold sweepLoopAux
    rw [if_pos hcur]
  | succ fuel =>
    unfold sweepLoopAux
    rw [List.getElem?_eq_getElem hcur]
    dsimp only
    by_cases hs : (0 : Int) < s
    · rw [if_pos hs]
      split
      · exact (sweepLoopAux_metaSet fuel _ (s - 1)).2.1
      · exact (sweepLoopAux_metaSet fuel _ (s - 1)).2.1
    · rw [if_neg hs]

theorem collectCoreSweep_back_state (c : Collector) (s : Int)
    (hb : (collectCoreSweep c s).2.2 = true) :
    (collectCoreSweep c s).1.state = GcState.RootMarking := by
  unfold collectCoreSweep sweepLoop at hb ⊢
  dsimp only at hb ⊢
  by_cases h : (sweepLoopAux s.toNat c s).1.metaSet.length ≤
      (sweepLoopAux s.toNat c s).1.nextSweeping
  · rw [if_pos h]
  · rw [if_neg h] at hb
    simp at hb

theorem collectCoreSweep_back_nonempty (c : Collector) (s : Int)
    (hb : (collectCoreSweep c s).2.2 = true) : c.metaSet ≠ [] := by
  have hsub := (sweepLoopAux_metaSet s.toNat c s).2.2
  unfold collectCoreSweep sweepLoop at hb
  dsimp only at hb
  by_cases h : (sweepLoopAux s.toNat c s).1.metaSet.length ≤
      (sweepLoopAux s.toNat c s).1.nextSweeping
  · rw [if_pos h] at hb
    dsimp only at hb
    intro hnil
    rw [hnil] at hsub
    rw [List.sublist_nil.mp hsub] at hb
    simp at hb
  · rw [if_neg h] at hb
    simp at hb

theorem collectCoreSweep_back_pos (c : Collector) (s : Int)
    (hcur : c.nextSweeping < c.metaSet.length)
    (hb : (collectCoreSweep c s).2.2 = true) : 0 < s := by
  by_contra hs
  push_neg at hs
  have hz : s.toNat = 0 := Int.toNat_of_nonpos hs
  have h0 : sweepLoopAux 0 c s = (c, s - 1) := by
    unfold sweepLoopAux
    rw [if_pos hcur]
  unfold collectCoreSweep sweepLoop at hb
  rw [hz, h0] at hb
  dsimp only at hb
  rw [if_neg (by omega)] at hb
  simp at hb

theorem collectCoreSweep_budget_lt (c : Collector) (s : Int)
    (hcur : c.nextSweeping < c.metaSet.length) :
    (collectCoreSweep c s).2.1 ≤ s - 1 := by
  have key := sweepLoopAux_progress s.toNat c s hcur
  unfold collectCoreSweep sweepLoop
  dsimp only
  split
  · exact key
  · exact key

theorem collectCoreSweep_degenerate (c : Collector) (s : Int)
    (h : c.metaSet.length ≤ c.nextSweeping) :
    collectCoreSweep c s =
      ({ c with state := GcState.RootMarking }, s, !c.metaSet.isEmpty) := by
  unfold collectCoreSweep sweepLoop
  rw [sweepLoopAux_stop s.toNat c s h]
  dsimp only
  rw [if_pos h]

theorem collectCoreChild_back (c : Collector) (s : Int)
    (hb : (collectCoreChild c s).2.2 = true) :
    (collectCoreChild c s).1.state = GcState.RootMarking ∧
    (collectCoreChild c s).2.1 ≤ s - 1 ∧ 0 < s := by
  have hbud := childMarkingLoopAux_budget s.toNat c s
  unfold collectCoreChild childMarkingLoop at hb ⊢
  dsimp only at hb ⊢
  by_cases h : (childMarkingLoopAux s.toNat c s).1.grayObjs = []
  · rw [if_pos h] at hb ⊢
    have hne := collectCoreSweep_back_nonempty _ _ hb
    have hcur : (0 : Nat) < (childMarkingLoopAux s.toNat c s).1.metaSet.length :=
      List.length_pos.mpr (by exact hne)
    have hpos := collectCoreSweep_back_pos _ _ (by exact hcur) hb
    refine ⟨collectCoreSweep_back_state _ _ hb,
      le_trans (collectCoreSweep_budget_lt _ _ (by exact hcur)) (by omega), by omega⟩
  · rw [if_neg h] at hb
    simp at hb

theorem collectCore_back (c : Collector) (s : Int)
    (hb : (collectCore c s).2.2 = true) :
    (collectCore c s).1.state = GcState.RootMarking ∧
    ((collectCore c s).2.1 ≤ s - 1 ∧ 0 < s ∨
      c.state = GcState.Sweeping ∧ (collectCore c s).2.1 = s) := by
  unfold collectCore at hb ⊢
  cases hst : c.state with
  | RootMarking =>
    rw [hst] at hb
    dsimp only at hb ⊢
    have hbud : (rootMarkingLoop c s).2 ≤ s := rootMarkingLoopAux_budget s.toNat c s
    by_cases h : (rootMarkingLoop c s).1.pointers.length ≤
        (rootMarkingLoop c s).1.nextRootMarking
    · rw [if_pos h] at hb ⊢
      have key := collectCoreChild_back _ _ hb
      refine ⟨key.1, Or.inl ⟨?_, ?_⟩⟩
      · have k := key.2.1
        omega
      · have k := key.2.2
        omega
    · rw [if_neg h] at hb
      simp at hb
  | ChildMarking =>
    rw [hst] at hb
    dsimp only at hb ⊢
    have key := collectCoreChild_back c s hb
    exact ⟨key.1, Or.inl key.2⟩
  | Sweeping =>
    rw [hst] at hb
    dsimp only at hb ⊢
    by_cases hcur : c.nextSweeping < c.metaSet.length
    · exact ⟨collectCoreSweep_back_state c s hb,
        Or.inl ⟨collectCoreSweep_budget_lt c s hcur,
          collectCoreSweep_back_pos c s hcur hb⟩⟩
    · rw [collectCoreSweep_degenerate c s (by omega)]
      exact ⟨rfl, Or.inr ⟨rfl, rfl⟩⟩

theorem collectAux_stable_R (b : Nat) : ∀ (c : Collector) (s : Int) (f1 f2 : Nat),
    c.state = GcState.RootMarking → s.toNat < b →
    s.toNat + 1 ≤ f1 → s.toNat + 1 ≤ f2 →
    collectAux f1 c s = collectAux f2 c s := by
  induction b with
  | zero =>
    intro c s f1 f2 _ hb _ _
    exact absurd hb (Nat.not_lt_zero _)
  | succ b ih =>
    intro c s f1 f2 hst hb h1 h2
    obtain ⟨g1, rfl⟩ : ∃ g, f1 = g + 1 := ⟨f1 - 1, by omega⟩
    obtain ⟨g2, rfl⟩ : ∃ g, f2 = g + 1 := ⟨f2 - 1, by omega⟩
    unfold collectAux
    dsimp only
    by_cases hback : (collectCore c s).2.2 = true
    · rw [if_pos hback, if_pos hback]
      have key := collectCore_back c s hback
      rcases key.2 with ⟨hle, hpos⟩ | ⟨hsw, _⟩
      · have hlt : (collectCore c s).2.1.toNat < s.toNat := by omega
        exact ih _ _ _ _ key.1 (by omega) (by omega) (by omega)
      · rw [hst] at hsw
        exact GcState.noConfusion hsw
    · rw [if_neg hback, if_neg hback]

theorem collectAux_fuel_sufficient (fuel : Nat) (c : Collector) (s : Int)
    (hf : s.toNat + 2 ≤ fuel) : collectAux fuel c s = collect c s := by
  unfold collect
  obtain ⟨g, rfl⟩ : ∃ g, fuel = g + 1 := ⟨fuel - 1, by omega⟩
  show collectAux (g + 1) c s = collectAux (s.toNat + 1 + 1) c s
  unfold collectAux
  dsimp only
  by_cases hback : (collectCore c s).2.2 = true
  · rw [if_pos hback, if_pos hback]
    have key := collectCore_back c s hback
    rcases key.2 with ⟨hle, hpos⟩ | ⟨_, heq⟩
    · have hlt : (collectCore c s).2.1.toNat < s.toNat := by omega
      exact collectAux_stable_R ((collectCore c s).2.1.toNat + 1) _ _ _ _ key.1
        (by omega) (by omega) (by omega)
    · rw [heq]
      exact collectAux_stable_R (s.toNat + 1) _ _ _ _ key.1
        (by omega) (by omega) (by omega)
  · rw [if_neg hback, if_neg hback]
